import Mathlib

/-!
# Headless log download middleware

A verification development for
`components/proxy/plugins/headlesslogdownload/headless_log_download.go`.

The handler `HeadlessLogDownload.ServeHTTP` asks a backend service for a
redirect URL, takes the answer apart with Go's `net/url`, and publishes the
pieces in the Caddy replacer before handing over to the next handler.
`UnmarshalCaddyfile` reads the handler's one option, `service`, from the
tokens of its directive.

Go strings are byte sequences, so they are lists of bytes here.  The functions
of Go's standard library the handler calls (`strings`, `net/url`,
`net/textproto`) and the Caddy dispenser are embedded function by function,
under their Go names; the handler itself is embedded as a function from its
inputs (configuration, inbound request, the backend's answer, the next
handler's result) to the sequence of effects it performs and the error it
returns.
-/

namespace workspacedownload

/-! ## Go strings -/

/-- A Go string: an immutable sequence of bytes (each below 256). -/
abbrev GoString := List Nat

/-- The byte of an ASCII character constant such as `':'`. -/
abbrev ch (c : Char) : Nat := c.toNat

/-- The UTF-8 encoding of one character, the way Go encodes source literals. -/
def utf8 (c : Char) : GoString :=
  let v := c.toNat
  if v < 0x80 then [v]
  else if v < 0x800 then [0xC0 + v / 64, 0x80 + v % 64]
  else if v < 0x10000 then [0xE0 + v / 4096, 0x80 + v / 64 % 64, 0x80 + v % 64]
  else [0xF0 + v / 262144, 0x80 + v / 4096 % 64, 0x80 + v / 64 % 64, 0x80 + v % 64]

/-- The Go string written as the literal `s`. -/
def lit (s : String) : GoString := s.toList.flatMap utf8

/-! ## Package `strings` -/

namespace strings

/-- Go `strings.HasPrefix(s, p)`. -/
def startsWith (s p : GoString) : Bool := p.isPrefixOf s

/-- Go `strings.HasSuffix(s, p)`. -/
def endsWith (s p : GoString) : Bool := p.isSuffixOf s

/-- Go `strings.Index(s, sep)`; `none` stands for `-1`. -/
def Index (s sep : GoString) : Option Nat :=
  match s with
  | [] => if sep = [] then some 0 else none
  | c :: t =>
    if sep.isPrefixOf (c :: t) then some 0
    else (Index t sep).map (fun i => i + 1)

/-- Go `strings.LastIndex(s, sep)`; `none` stands for `-1`. -/
def LastIndex (s sep : GoString) : Option Nat :=
  match s with
  | [] => if sep = [] then some 0 else none
  | c :: t =>
    match LastIndex t sep with
    | some i => some (i + 1)
    | none => if sep.isPrefixOf (c :: t) then some 0 else none

/-- Go `strings.LastIndexByte(s, c)`; `none` stands for `-1`. -/
def LastIndexByte (s : GoString) (c : Nat) : Option Nat := LastIndex s [c]

/-- Go `strings.Contains(s, sep)`. -/
def Contains (s sep : GoString) : Bool := (Index s sep).isSome

/-- Go `strings.Count(s, sep)` for a one-byte `sep`. -/
def Count (s : GoString) (c : Nat) : Nat := s.count c

/-- Go `strings.Cut(s, sep)`: the text before and after the first `sep`, and
whether `sep` was found. -/
def Cut (s sep : GoString) : GoString × GoString × Bool :=
  match Index s sep with
  | some i => (s.take i, s.drop (i + sep.length), true)
  | none => (s, [], false)

/-- Go `strings.ToLower` on ASCII text (the only text it is applied to here:
a scheme consists of ASCII letters, digits, `+`, `-` and `.`). -/
def ToLower (s : GoString) : GoString :=
  s.map (fun c => if ch 'A' ≤ c ∧ c ≤ ch 'Z' then c + 32 else c)

end strings

/-! ## Package `net/url`

The functions below follow Go's `net/url` one by one (`Parse`, `parse`,
`getScheme`, `parseAuthority`, `parseHost`, `unescape`, `escape`,
`shouldEscape`, `URL.String`, `URL.Port`).  Two things are left out: the
`*url.Error` wrapper `Parse` puts around an error, and the validation of the
address inside a bracketed IP literal that recent releases add to `parseHost`.
-/

namespace url

/-- Go `url.encoding`: the part of a URL being escaped or unescaped. -/
inductive encoding
  | encodePath
  | encodePathSegment
  | encodeHost
  | encodeZone
  | encodeUserPassword
  | encodeQueryComponent
  | encodeFragment
  deriving DecidableEq, Repr

/-- The errors `net/url` reports. -/
inductive Error
  /-- Go `url.EscapeError(s)`: "invalid URL escape". -/
  | EscapeError (s : GoString)
  /-- Go `url.InvalidHostError(s)`: "invalid character in host name". -/
  | InvalidHostError (s : GoString)
  /-- "net/url: invalid control character in URL" -/
  | invalidControlCharacter
  /-- "empty url" -/
  | emptyURL
  /-- "missing protocol scheme" -/
  | missingProtocolScheme
  /-- "invalid URI for request" -/
  | invalidURIForRequest
  /-- "first path segment in URL cannot contain colon" -/
  | firstPathSegmentColon
  /-- "missing ']' in host" -/
  | missingBracket
  /-- "invalid port ... after host" -/
  | invalidPort (colonPort : GoString)
  /-- "net/url: invalid userinfo" -/
  | invalidUserinfo
  deriving DecidableEq, Repr

/-- Go `url.Userinfo`. -/
structure Userinfo where
  username : GoString
  password : GoString
  passwordSet : Bool
  deriving DecidableEq, Repr

/-- Go `url.URL`. -/
structure URL where
  Scheme : GoString := []
  Opaque : GoString := []
  User : Option Userinfo := none
  Host : GoString := []
  Path : GoString := []
  RawPath : GoString := []
  OmitHost : Bool := false
  ForceQuery : Bool := false
  RawQuery : GoString := []
  Fragment : GoString := []
  RawFragment : GoString := []
  deriving DecidableEq, Repr

/-- Go `ishex`. -/
def ishex (c : Nat) : Bool :=
  (ch '0' ≤ c && c ≤ ch '9') || (ch 'a' ≤ c && c ≤ ch 'f') || (ch 'A' ≤ c && c ≤ ch 'F')

/-- Go `unhex`. -/
def unhex (c : Nat) : Nat :=
  if ch '0' ≤ c ∧ c ≤ ch '9' then c - ch '0'
  else if ch 'a' ≤ c ∧ c ≤ ch 'f' then c - ch 'a' + 10
  else if ch 'A' ≤ c ∧ c ≤ ch 'F' then c - ch 'A' + 10
  else 0

/-- Go `shouldEscape(c, mode)`.  The bytes 39 and 34 are the single and the
double quote. -/
def shouldEscape (c : Nat) (mode : encoding) : Bool :=
  if (ch 'a' ≤ c ∧ c ≤ ch 'z') ∨ (ch 'A' ≤ c ∧ c ≤ ch 'Z') ∨ (ch '0' ≤ c ∧ c ≤ ch '9') then
    false
  else if (mode = .encodeHost ∨ mode = .encodeZone) ∧
      c ∈ [ch '!', ch '$', ch '&', 39, ch '(', ch ')', ch '*', ch '+', ch ',', ch ';',
        ch '=', ch ':', ch '[', ch ']', ch '<', ch '>', 34] then
    false
  else if c ∈ [ch '-', ch '_', ch '.', ch '~'] then
    false
  else if c ∈ [ch '$', ch '&', ch '+', ch ',', ch '/', ch ':', ch ';', ch '=', ch '?',
      ch '@'] then
    match mode with
    | .encodePath => c = ch '?'
    | .encodePathSegment => c = ch '/' || c = ch ';' || c = ch ',' || c = ch '?'
    | .encodeUserPassword => c = ch '@' || c = ch '/' || c = ch '?' || c = ch ':'
    | .encodeQueryComponent => true
    | .encodeFragment => false
    | _ => true
  else if mode = .encodeFragment ∧ c ∈ [ch '!', ch '(', ch ')', ch '*'] then
    false
  else
    true

/-- The first loop of Go `unescape`: checks that every `%` starts a well-formed
escape and returns the number of escapes and whether a `+` has to be decoded. -/
def unescapeScan (mode : encoding) : GoString → Except Error (Nat × Bool)
  | [] => .ok (0, false)
  | c :: rest =>
    if c = ch '%' then
      match rest with
      | a :: b :: rest2 =>
        if !ishex a || !ishex b then
          .error (.EscapeError [c, a, b])
        else if mode = .encodeHost ∧ unhex a < 8 ∧ [c, a, b] ≠ lit "%25" then
          .error (.EscapeError [c, a, b])
        else if mode = .encodeZone ∧ [c, a, b] ≠ lit "%25" ∧
            unhex a * 16 + unhex b ≠ ch ' ' ∧
            shouldEscape (unhex a * 16 + unhex b) .encodeHost then
          .error (.EscapeError [c, a, b])
        else
          match unescapeScan mode rest2 with
          | .error e => .error e
          | .ok (n, hasPlus) => .ok (n + 1, hasPlus)
      | _ => .error (.EscapeError (c :: rest))
    else if c = ch '+' then
      match unescapeScan mode rest with
      | .error e => .error e
      | .ok (n, _) => .ok (n, decide (mode = .encodeQueryComponent))
    else if (mode = .encodeHost ∨ mode = .encodeZone) ∧ c < 0x80 ∧
        shouldEscape c .encodeHost then
      .error (.InvalidHostError [c])
    else
      unescapeScan mode rest

/-- The second loop of Go `unescape`: decodes the escapes of a string the first
loop accepted (a truncated escape, which the first loop rejects, is kept). -/
def unescapeBuild (mode : encoding) : GoString → GoString
  | [] => []
  | c :: rest =>
    if c = ch '%' then
      match rest with
      | a :: b :: rest2 => (unhex a * 16 + unhex b) :: unescapeBuild mode rest2
      | _ => c :: rest
    else if c = ch '+' then
      (if mode = .encodeQueryComponent then ch ' ' else ch '+') :: unescapeBuild mode rest
    else
      c :: unescapeBuild mode rest

/-- Go `unescape(s, mode)`. -/
def unescape (s : GoString) (mode : encoding) : Except Error GoString :=
  match unescapeScan mode s with
  | .error e => .error e
  | .ok (n, hasPlus) =>
    if n = 0 ∧ hasPlus = false then .ok s else .ok (unescapeBuild mode s)

/-- Go `url.QueryUnescape(s)`. -/
def QueryUnescape (s : GoString) : Except Error GoString :=
  unescape s .encodeQueryComponent

/-- Go `upperhex[n]`. -/
def upperhex (n : Nat) : Nat := (lit "0123456789ABCDEF").getD n 0

/-- Go `escape(s, mode)`. -/
def escape (s : GoString) (mode : encoding) : GoString :=
  s.flatMap (fun c =>
    if c = ch ' ' ∧ mode = .encodeQueryComponent then [ch '+']
    else if shouldEscape c mode then [ch '%', upperhex (c / 16), upperhex (c % 16)]
    else [c])

/-- Go `stringContainsCTLByte`. -/
def stringContainsCTLByte (s : GoString) : Bool :=
  s.any (fun b => b < ch ' ' || b = 0x7f)

/-- The loop of Go `getScheme`, at index `i` with `s` the text from `i` on. -/
def getSchemeLoop (rawURL : GoString) : Nat → GoString → Except Error (GoString × GoString)
  | _, [] => .ok ([], rawURL)
  | i, c :: s =>
    if (ch 'a' ≤ c ∧ c ≤ ch 'z') ∨ (ch 'A' ≤ c ∧ c ≤ ch 'Z') then
      getSchemeLoop rawURL (i + 1) s
    else if (ch '0' ≤ c ∧ c ≤ ch '9') ∨ c = ch '+' ∨ c = ch '-' ∨ c = ch '.' then
      if i = 0 then .ok ([], rawURL) else getSchemeLoop rawURL (i + 1) s
    else if c = ch ':' then
      if i = 0 then .error .missingProtocolScheme
      else .ok (rawURL.take i, rawURL.drop (i + 1))
    else
      .ok ([], rawURL)

/-- Go `getScheme(rawURL)`: the scheme and the rest of the URL. -/
def getScheme (rawURL : GoString) : Except Error (GoString × GoString) :=
  getSchemeLoop rawURL 0 rawURL

/-- Go `validOptionalPort(port)`: `port` is empty or `:` followed by digits. -/
def validOptionalPort (port : GoString) : Bool :=
  match port with
  | [] => true
  | c :: digits => c = ch ':' && digits.all (fun b => !(b < ch '0' || b > ch '9'))

/-- Go `validUserinfo(s)`.  The byte 39 is the single quote. -/
def validUserinfo (s : GoString) : Bool :=
  s.all (fun r =>
    (ch 'A' ≤ r && r ≤ ch 'Z') || (ch 'a' ≤ r && r ≤ ch 'z') || (ch '0' ≤ r && r ≤ ch '9') ||
    decide (r ∈ [ch '-', ch '.', ch '_', ch ':', ch '~', ch '!', ch '$', ch '&', 39,
      ch '(', ch ')', ch '*', ch '+', ch ',', ch ';', ch '=', ch '%', ch '@']))

/-- Go `parseHost(host)`. -/
def parseHost (host : GoString) : Except Error GoString :=
  if strings.startsWith host (lit "[") then
    match strings.LastIndex host (lit "]") with
    | none => .error .missingBracket
    | some i =>
      let colonPort := host.drop (i + 1)
      if !validOptionalPort colonPort then
        .error (.invalidPort colonPort)
      else
        match strings.Index (host.take i) (lit "%25") with
        | some zone =>
          match unescape (host.take zone) .encodeHost with
          | .error e => .error e
          | .ok host1 =>
            match unescape ((host.take i).drop zone) .encodeZone with
            | .error e => .error e
            | .ok host2 =>
              match unescape (host.drop i) .encodeHost with
              | .error e => .error e
              | .ok host3 => .ok (host1 ++ host2 ++ host3)
        | none => unescape host .encodeHost
  else
    match strings.LastIndex host (lit ":") with
    | some i =>
      if !validOptionalPort (host.drop i) then .error (.invalidPort (host.drop i))
      else unescape host .encodeHost
    | none => unescape host .encodeHost

/-- Go `parseAuthority(authority)`: the user information and the host. -/
def parseAuthority (authority : GoString) : Except Error (Option Userinfo × GoString) :=
  match strings.LastIndex authority (lit "@") with
  | none =>
    match parseHost authority with
    | .error e => .error e
    | .ok host => .ok (none, host)
  | some i =>
    match parseHost (authority.drop (i + 1)) with
    | .error e => .error e
    | .ok host =>
      let userinfo := authority.take i
      if !validUserinfo userinfo then
        .error .invalidUserinfo
      else if !strings.Contains userinfo (lit ":") then
        match unescape userinfo .encodeUserPassword with
        | .error e => .error e
        | .ok username => .ok (some ⟨username, [], false⟩, host)
      else
        match unescape (strings.Cut userinfo (lit ":")).1 .encodeUserPassword with
        | .error e => .error e
        | .ok username =>
          match unescape (strings.Cut userinfo (lit ":")).2.1 .encodeUserPassword with
          | .error e => .error e
          | .ok password => .ok (some ⟨username, password, true⟩, host)

/-- Go `(*URL).setPath(p)`. -/
def URL.setPath (u : URL) (p : GoString) : Except Error URL :=
  match unescape p .encodePath with
  | .error e => .error e
  | .ok path =>
    if p = escape path .encodePath then .ok { u with Path := path, RawPath := [] }
    else .ok { u with Path := path, RawPath := p }

/-- Go `(*URL).setFragment(f)`. -/
def URL.setFragment (u : URL) (f : GoString) : Except Error URL :=
  match unescape f .encodeFragment with
  | .error e => .error e
  | .ok frag =>
    if f = escape frag .encodeFragment then .ok { u with Fragment := frag, RawFragment := [] }
    else .ok { u with Fragment := frag, RawFragment := f }

/-- Go `parse(rawURL, viaRequest)`. -/
def parse (rawURL : GoString) (viaRequest : Bool) : Except Error URL :=
  if stringContainsCTLByte rawURL then .error .invalidControlCharacter
  else if rawURL = [] ∧ viaRequest then .error .emptyURL
  else if rawURL = lit "*" then .ok { Path := lit "*" }
  else
    match getScheme rawURL with
    | .error e => .error e
    | .ok (scheme, rest0) =>
      let forceQuery : Bool :=
        strings.endsWith rest0 (lit "?") && strings.Count rest0 (ch '?') = 1
      let rest : GoString :=
        if forceQuery then rest0.take (rest0.length - 1) else (strings.Cut rest0 (lit "?")).1
      let rawQuery : GoString :=
        if forceQuery then [] else (strings.Cut rest0 (lit "?")).2.1
      let url : URL :=
        { Scheme := strings.ToLower scheme, ForceQuery := forceQuery, RawQuery := rawQuery }
      if !strings.startsWith rest (lit "/") ∧ url.Scheme ≠ [] then
        .ok { url with Opaque := rest }
      else if !strings.startsWith rest (lit "/") ∧ viaRequest then
        .error .invalidURIForRequest
      else if !strings.startsWith rest (lit "/") ∧
          strings.Contains (strings.Cut rest (lit "/")).1 (lit ":") then
        .error .firstPathSegmentColon
      else if (url.Scheme ≠ [] ∨ (!viaRequest ∧ !strings.startsWith rest (lit "///"))) ∧
          strings.startsWith rest (lit "//") then
        let authority0 := rest.drop 2
        let authority :=
          match strings.Index authority0 (lit "/") with
          | some i => authority0.take i
          | none => authority0
        let rest2 :=
          match strings.Index authority0 (lit "/") with
          | some i => authority0.drop i
          | none => []
        match parseAuthority authority with
        | .error e => .error e
        | .ok (user, host) => URL.setPath { url with User := user, Host := host } rest2
      else if url.Scheme ≠ [] ∧ strings.startsWith rest (lit "/") then
        URL.setPath { url with OmitHost := true } rest
      else
        URL.setPath url rest

/-- Go `url.Parse(rawURL)`. -/
def Parse (rawURL : GoString) : Except Error URL :=
  match parse (strings.Cut rawURL (lit "#")).1 false with
  | .error e => .error e
  | .ok url =>
    if (strings.Cut rawURL (lit "#")).2.1 = [] then .ok url
    else URL.setFragment url (strings.Cut rawURL (lit "#")).2.1

/-- Go `validEncoded(s, mode)`.  The byte 39 is the single quote. -/
def validEncoded (s : GoString) (mode : encoding) : Bool :=
  s.all (fun c =>
    decide (c ∈ [ch '!', ch '$', ch '&', 39, ch '(', ch ')', ch '*', ch '+', ch ',', ch ';',
      ch '=', ch ':', ch '@', ch '[', ch ']', ch '%']) || !shouldEscape c mode)

/-- Go `(*URL).EscapedPath()`. -/
def URL.EscapedPath (u : URL) : GoString :=
  let keepRaw : Bool :=
    u.RawPath ≠ [] && validEncoded u.RawPath .encodePath &&
      (match unescape u.RawPath .encodePath with
       | .ok p => p = u.Path
       | .error _ => false)
  if keepRaw then u.RawPath
  else if u.Path = lit "*" then lit "*"
  else escape u.Path .encodePath

/-- Go `(*URL).EscapedFragment()`. -/
def URL.EscapedFragment (u : URL) : GoString :=
  let keepRaw : Bool :=
    u.RawFragment ≠ [] && validEncoded u.RawFragment .encodeFragment &&
      (match unescape u.RawFragment .encodeFragment with
       | .ok f => f = u.Fragment
       | .error _ => false)
  if keepRaw then u.RawFragment
  else escape u.Fragment .encodeFragment

/-- Go `(*Userinfo).String()`. -/
def Userinfo.String (ui : Userinfo) : GoString :=
  if ui.passwordSet then
    escape ui.username .encodeUserPassword ++ lit ":" ++ escape ui.password .encodeUserPassword
  else escape ui.username .encodeUserPassword

/-- What Go `(*URL).String()` writes for the authority and the path of a URL
that is not opaque, after `buf` (the scheme and its colon, if any). -/
def URL.hierPart (u : URL) (buf : GoString) : GoString :=
  let buf1 : GoString :=
    if u.Scheme ≠ [] ∨ u.Host ≠ [] ∨ u.User.isSome then
      if u.OmitHost ∧ u.Host = [] ∧ u.User.isNone then buf
      else
        (if u.Host ≠ [] ∨ u.Path ≠ [] ∨ u.User.isSome then buf ++ lit "//" else buf)
          ++ (match u.User with
              | some ui => ui.String ++ lit "@"
              | none => [])
          ++ (if u.Host ≠ [] then escape u.Host .encodeHost else [])
    else buf
  let path := u.EscapedPath
  let buf2 : GoString :=
    if path ≠ [] ∧ path.head? ≠ some (ch '/') ∧ u.Host ≠ [] then buf1 ++ lit "/" else buf1
  let buf3 : GoString :=
    if buf2 = [] ∧ strings.Contains (strings.Cut path (lit "/")).1 (lit ":") then
      buf2 ++ lit "./"
    else buf2
  buf3 ++ path

/-- Go `(*URL).String()`. -/
def URL.String (u : URL) : GoString :=
  let buf0 : GoString := if u.Scheme ≠ [] then u.Scheme ++ lit ":" else []
  let buf1 : GoString := if u.Opaque ≠ [] then buf0 ++ u.Opaque else u.hierPart buf0
  let buf2 : GoString :=
    if u.ForceQuery ∨ u.RawQuery ≠ [] then buf1 ++ lit "?" ++ u.RawQuery else buf1
  if u.Fragment ≠ [] then buf2 ++ lit "#" ++ u.EscapedFragment else buf2

/-- Go `splitHostPort(hostPort)`: the host without brackets, and the port. -/
def splitHostPort (hostPort : GoString) : GoString × GoString :=
  let colon := strings.LastIndexByte hostPort (ch ':')
  let split : Bool :=
    match colon with
    | some i => validOptionalPort (hostPort.drop i)
    | none => false
  let host : GoString :=
    match colon with
    | some i => if split then hostPort.take i else hostPort
    | none => hostPort
  let port : GoString :=
    match colon with
    | some i => if split then hostPort.drop (i + 1) else []
    | none => []
  if strings.startsWith host (lit "[") ∧ strings.endsWith host (lit "]") then
    ((host.drop 1).take (host.length - 2), port)
  else (host, port)

/-- Go `(*URL).Hostname()`. -/
def URL.Hostname (u : URL) : GoString := (splitHostPort u.Host).1

/-- Go `(*URL).Port()`. -/
def URL.Port (u : URL) : GoString := (splitHostPort u.Host).2

end url

/-! ## Packages `net/textproto` and `net/http`: headers -/

namespace textproto

/-- Go `validHeaderFieldByte(c)`: `c` is a token character of RFC 7230.  The
bytes 39 and 96 are the single quote and the grave accent. -/
def validHeaderFieldByte (c : Nat) : Bool :=
  (ch 'a' ≤ c && c ≤ ch 'z') || (ch 'A' ≤ c && c ≤ ch 'Z') || (ch '0' ≤ c && c ≤ ch '9') ||
  decide (c ∈ [ch '!', ch '#', ch '$', ch '%', ch '&', 39, ch '*', ch '+', ch '-', ch '.',
    ch '^', ch '_', 96, ch '|', ch '~'])

/-- The second loop of Go `canonicalMIMEHeaderKey`: upper case for the first
letter and for a letter after a dash, lower case for the others. -/
def canonicalLoop : Bool → GoString → GoString
  | _, [] => []
  | upper, c :: a =>
    let c2 : Nat :=
      if upper ∧ ch 'a' ≤ c ∧ c ≤ ch 'z' then c - 32
      else if ¬ upper ∧ ch 'A' ≤ c ∧ c ≤ ch 'Z' then c + 32
      else c
    c2 :: canonicalLoop (c2 = ch '-') a

/-- Go `canonicalMIMEHeaderKey(a)`: a key with a byte that is not a token
character (a space included) is returned unchanged. -/
def canonicalMIMEHeaderKey (a : GoString) : GoString :=
  if a.any (fun c => !validHeaderFieldByte c && c ≠ ch ' ') then a
  else if a.any (fun c => !validHeaderFieldByte c) then a
  else canonicalLoop true a

/-- The loop of Go `CanonicalMIMEHeaderKey`: the quick check for a key that is
canonical already. -/
def quickCheck (s : GoString) : Bool → GoString → GoString
  | _, [] => s
  | upper, c :: rest =>
    if !validHeaderFieldByte c then s
    else if upper ∧ ch 'a' ≤ c ∧ c ≤ ch 'z' then canonicalMIMEHeaderKey s
    else if ¬ upper ∧ ch 'A' ≤ c ∧ c ≤ ch 'Z' then canonicalMIMEHeaderKey s
    else quickCheck s (c = ch '-') rest

/-- Go `textproto.CanonicalMIMEHeaderKey(s)`. -/
def CanonicalMIMEHeaderKey (s : GoString) : GoString := quickCheck s true s

end textproto

namespace http

/-- Go `http.Header`, a `map[string][]string`: the entries, in the order the
handler's `range` loop visits them. -/
abbrev Header := List (GoString × List GoString)

/-- The map read `h[key]` (`nil` for a missing key). -/
def Header.values (h : Header) (key : GoString) : List GoString :=
  match h with
  | [] => []
  | (k, vv) :: rest => if k = key then vv else Header.values rest key

/-- The map write `h[key] = vv`. -/
def Header.store (h : Header) (key : GoString) (vv : List GoString) : Header :=
  match h with
  | [] => [(key, vv)]
  | (k, old) :: rest =>
    if k = key then (k, vv) :: rest else (k, old) :: Header.store rest key vv

/-- Go `Header.Add(key, value)`. -/
def Header.Add (h : Header) (key value : GoString) : Header :=
  h.store (textproto.CanonicalMIMEHeaderKey key)
    (h.values (textproto.CanonicalMIMEHeaderKey key) ++ [value])

/-- Go `Header.Set(key, value)`. -/
def Header.Set (h : Header) (key value : GoString) : Header :=
  h.store (textproto.CanonicalMIMEHeaderKey key) [value]

/-- The fields of the inbound `*http.Request` the handler reads. -/
structure Request where
  /-- `r.URL.Path` -/
  Path : GoString
  /-- `r.URL.RawQuery` -/
  RawQuery : GoString
  /-- `r.Header` -/
  Header : Header
  deriving DecidableEq, Repr

/-- The outbound request: its method, the URL string handed to
`http.NewRequest` and its headers. -/
structure Outbound where
  Method : GoString
  URL : GoString
  Header : Header
  deriving DecidableEq, Repr

/-- Go `http.NewRequest(method, url, nil)` for a valid method: it fails exactly
when `url` does not parse; the new request has no header. -/
def NewRequest (method url : GoString) : Option Outbound :=
  match workspacedownload.url.Parse url with
  | .error _ => none
  | .ok _ => some { Method := method, URL := url, Header := [] }

/-- What the backend answers: its status code and what `io.ReadAll(resp.Body)`
returns (`none` when reading the body fails). -/
structure Response where
  StatusCode : Int
  Body : Option GoString
  deriving DecidableEq, Repr

/-- Go `http.StatusOK`. -/
def StatusOK : Int := 200

end http

/-! ## The handler -/

/-- An error value returned by the handler. -/
inductive GoError
  /-- The error `fmt.Errorf` builds from a message. -/
  | Errorf (msg : GoString)
  /-- An error of package `net/url`. -/
  | url (e : url.Error)
  /-- An error the next handler returns. -/
  | handler (msg : GoString)
  deriving DecidableEq, Repr

/-- The effects of the handler on its surroundings.  Log lines are left out. -/
inductive Event
  /-- `client.Do(req)` -/
  | Do (req : http.Outbound)
  /-- `repl.Set(name, value)` -/
  | Set (name value : GoString)
  /-- `w.WriteHeader(statusCode)` -/
  | WriteHeader (statusCode : Int)
  /-- `next.ServeHTTP(w, r)` -/
  | next
  deriving DecidableEq, Repr

/-- One run of the handler: its effects in order, and the error it returns
(`none` for `nil`). -/
structure Outcome where
  effects : List Event
  err : Option GoError
  deriving DecidableEq, Repr

def headlessLogDownloadModule : GoString := lit "gitpod.headless_log_download"

def redirectURLVariable : GoString := lit "http." ++ headlessLogDownloadModule ++ lit "_url"

def redirectHostVariable : GoString := lit "http." ++ headlessLogDownloadModule ++ lit "_host"

def redirectHostAndPortVariable : GoString :=
  lit "http." ++ headlessLogDownloadModule ++ lit "_hostPort"

def redirectPathVariable : GoString := lit "http." ++ headlessLogDownloadModule ++ lit "_path"

def redirectQueryVariable : GoString := lit "http." ++ headlessLogDownloadModule ++ lit "_query"

/-- Go `HeadlessLogDownload`: the configured handler. -/
structure HeadlessLogDownload where
  Service : GoString
  deriving DecidableEq, Repr

/-- The URL `ServeHTTP` looks up (source lines 51-57): the service, the
request's path and, when the raw query is not empty, `?` and the raw query. -/
def lookupURL (m : HeadlessLogDownload) (r : http.Request) : GoString :=
  let query := if r.RawQuery ≠ [] then lit "?" ++ r.RawQuery else r.RawQuery
  m.Service ++ r.Path ++ query

/-- The headers `ServeHTTP` gives the outbound request (source lines 66-73):
every value of every inbound header is added, then `Content-Type` is set. -/
def lookupHeader (r : http.Request) : http.Header :=
  http.Header.Set
    (r.Header.foldl (fun h kvv => kvv.2.foldl (fun h v => http.Header.Add h kvv.1 v) h) [])
    (lit "Content-Type") (lit "*/*")

/-- The port `ServeHTTP` computes (source lines 99-106). -/
def redirectPort (redirectURL : url.URL) : GoString :=
  if redirectURL.Port = [] then
    if redirectURL.Scheme = lit "http" then lit "80"
    else if redirectURL.Scheme = lit "https" then lit "443"
    else redirectURL.Port
  else redirectURL.Port

/-- The value `ServeHTTP` builds with `fmt.Sprintf("%s:%s", ...)` (source line
107). -/
def redirectHostAndPort (redirectURL : url.URL) : GoString :=
  redirectURL.Host ++ lit ":" ++ redirectPort redirectURL

/-- What `ServeHTTP` does with the parsed redirect URL (source lines 96-121),
after the effects `before`. -/
def publish (redirectURL : url.URL) (next : Option GoError) (before : List Event) : Outcome :=
  let written : List Event := before ++
    [.Set redirectURLVariable redirectURL.String,
     .Set redirectHostAndPortVariable (redirectHostAndPort redirectURL),
     .Set redirectHostVariable redirectURL.Host,
     .Set redirectPathVariable redirectURL.Path]
  match url.QueryUnescape redirectURL.RawQuery with
  | .error err => { effects := written, err := some (.url err) }
  | .ok decodedQuery =>
    { effects := written ++ [.Set redirectQueryVariable decodedQuery, .next], err := next }

/-- Go `HeadlessLogDownload.ServeHTTP(w, r, next)`.  `lookup` is what
`client.Do` gives back (`none` for an error) and `next` is what the next
handler returns when it is called. -/
def HeadlessLogDownload.ServeHTTP (m : HeadlessLogDownload) (r : http.Request)
    (lookup : Option http.Response) (next : Option GoError) : Outcome :=
  match http.NewRequest (lit "GET") (lookupURL m r) with
  | none =>
    { effects := [], err := some (.Errorf (lit "Server Error: cannot download headless log")) }
  | some req0 =>
    let req : http.Outbound := { req0 with Header := lookupHeader r }
    match lookup with
    | none =>
      { effects := [.Do req],
        err := some (.Errorf (lit "Server Error: cannot download headless log")) }
    | some resp =>
      if resp.StatusCode ≠ http.StatusOK then
        { effects := [.Do req],
          err := some (.Errorf
            (lit "Bad Request: /headless-log-download/get returned with code " ++
              lit (toString resp.StatusCode))) }
      else
        match resp.Body with
        | none =>
          { effects := [.Do req],
            err := some (.Errorf (lit "Server error: cannot obtain headless log redirect URL")) }
        | some redirectURLBytes =>
          match url.Parse redirectURLBytes with
          | .error _ => { effects := [.Do req, .WriteHeader 500], err := none }
          | .ok redirectURL => publish redirectURL next [.Do req]

/-! ## Package `caddyfile`: the dispenser

`caddyfile.Dispenser` as Caddy 2 defines it: a list of tokens, a cursor and a
nesting level.  The methods `UnmarshalCaddyfile` calls are embedded one by
one; each returns what the Go method returns together with the dispenser it
leaves. -/

namespace caddyfile

/-- Go `caddyfile.Token`: the text of a token and where it was read. -/
structure Token where
  File : GoString
  Line : Int
  Text : GoString
  deriving DecidableEq, Repr

/-- Go `caddyfile.Dispenser`. -/
structure Dispenser where
  tokens : List Token
  cursor : Int
  nesting : Int
  deriving DecidableEq, Repr

/-- Go `caddyfile.NewDispenser(tokens)`. -/
def NewDispenser (tokens : List Token) : Dispenser :=
  { tokens := tokens, cursor := -1, nesting := 0 }

/-- The token `d.tokens[i]`, when `i` is an index of the list. -/
def Dispenser.token (d : Dispenser) (i : Int) : Option Token :=
  if i < 0 then none else d.tokens[i.toNat]?

/-- Go `(*Dispenser).Next()`. -/
def Dispenser.Next (d : Dispenser) : Bool × Dispenser :=
  if d.cursor < (d.tokens.length : Int) - 1 then (true, { d with cursor := d.cursor + 1 })
  else (false, d)

/-- Go `(*Dispenser).Val()`. -/
def Dispenser.Val (d : Dispenser) : GoString :=
  if d.cursor < 0 ∨ d.cursor ≥ (d.tokens.length : Int) then []
  else
    match d.token d.cursor with
    | some t => t.Text
    | none => []

/-- Go `(*Dispenser).numLineBreaks(tknIdx)`: the line feeds in the token's text. -/
def Dispenser.numLineBreaks (d : Dispenser) (tknIdx : Int) : Int :=
  if tknIdx < 0 ∨ tknIdx ≥ (d.tokens.length : Int) then 0
  else
    match d.token tknIdx with
    | some t => (strings.Count t.Text 10 : Nat)
    | none => 0

/-- Go `(*Dispenser).nextOnSameLine()`. -/
def Dispenser.nextOnSameLine (d : Dispenser) : Bool × Dispenser :=
  if d.cursor < 0 then (true, { d with cursor := d.cursor + 1 })
  else if d.cursor ≥ (d.tokens.length : Int) then (false, d)
  else
    match d.token d.cursor, d.token (d.cursor + 1) with
    | some cur, some nxt =>
      if d.cursor < (d.tokens.length : Int) - 1 ∧ cur.File = nxt.File ∧
          cur.Line + d.numLineBreaks d.cursor = nxt.Line then
        (true, { d with cursor := d.cursor + 1 })
      else (false, d)
    | _, _ => (false, d)

/-- Go `(*Dispenser).NextArg()`. -/
def Dispenser.NextArg (d : Dispenser) : Bool × Dispenser :=
  if !d.nextOnSameLine.1 then (false, d.nextOnSameLine.2)
  else if d.nextOnSameLine.2.Val = lit "\x7b" then
    (false, { d.nextOnSameLine.2 with cursor := d.nextOnSameLine.2.cursor - 1 })
  else (true, d.nextOnSameLine.2)

/-- Go `(*Dispenser).Args(&value)` with one target: whether the target was
filled, the target, and the dispenser. -/
def Dispenser.Args (d : Dispenser) (value : GoString) : Bool × GoString × Dispenser :=
  if !d.NextArg.1 then (false, value, d.NextArg.2)
  else (true, d.NextArg.2.Val, d.NextArg.2)

/-- The second arm of the test in Go `NextBlock`:
`d.Val() == "\x7b" && !d.nextOnSameLine()` and the `d.nesting++` it guards. -/
def Dispenser.openingBrace (d : Dispenser) : Dispenser :=
  if d.Val = lit "\x7b" then
    if !d.nextOnSameLine.1 then
      { d.nextOnSameLine.2 with nesting := d.nextOnSameLine.2.nesting + 1 }
    else d.nextOnSameLine.2
  else d

/-- The test in Go `NextBlock` on the token `Next` loaded: a closing brace not
followed on its line lowers the nesting, an opening brace not followed on its
line raises it. -/
def Dispenser.countBrace (d : Dispenser) : Dispenser :=
  if d.Val = lit "\x7d" then
    if !d.nextOnSameLine.1 then
      { d.nextOnSameLine.2 with nesting := d.nextOnSameLine.2.nesting - 1 }
    else d.nextOnSameLine.2.openingBrace
  else d.openingBrace

/-- Go `(*Dispenser).NextBlock(initialNestingLevel)`. -/
def Dispenser.NextBlock (d : Dispenser) (initialNestingLevel : Int) : Bool × Dispenser :=
  if d.nesting > initialNestingLevel then
    if !d.Next.1 then (false, d.Next.2)
    else (decide (d.Next.2.countBrace.nesting > initialNestingLevel), d.Next.2.countBrace)
  else if !d.nextOnSameLine.1 then (false, d.nextOnSameLine.2)
  else if d.nextOnSameLine.2.Val ≠ lit "\x7b" then
    (false, { d.nextOnSameLine.2 with cursor := d.nextOnSameLine.2.cursor - 1 })
  else if d.nextOnSameLine.2.Next.2.Val = lit "\x7d" then (false, d.nextOnSameLine.2.Next.2)
  else
    (true, { d.nextOnSameLine.2.Next.2 with nesting := d.nextOnSameLine.2.Next.2.nesting + 1 })

end caddyfile

/-- The errors `UnmarshalCaddyfile` returns. -/
inductive ConfigError
  /-- Go `d.Err(msg)` and `d.Errf(...)`: a parse error with this message (the
  file and line in front of it are left out). -/
  | Err (msg : GoString)
  /-- The error `fmt.Errorf` builds from a message. -/
  | Errorf (msg : GoString)
  deriving DecidableEq, Repr

/-- Go `(*Dispenser).ArgErr()`.  The byte 39 is the single quote. -/
def caddyfile.Dispenser.ArgErr (d : caddyfile.Dispenser) : ConfigError :=
  if d.Val = lit "\x7b" then
    .Err (lit "Unexpected token " ++ [39] ++ lit "\x7b" ++ [39] ++ lit ", expecting argument")
  else
    .Err (lit "Wrong argument count or unexpected line ending after " ++ [39] ++ d.Val ++ [39])

/-- One pass through the body of the loop of `UnmarshalCaddyfile` (source lines
131-143): the handler and the dispenser it leaves, and the error it returns
with, if it returns. -/
def subdirective (m : HeadlessLogDownload) (d : caddyfile.Dispenser) :
    HeadlessLogDownload × caddyfile.Dispenser × Option ConfigError :=
  let key := d.Val
  let value := (d.Args []).2.1
  let d2 := (d.Args []).2.2
  if d2.NextArg.1 then (m, d2.NextArg.2, some d2.NextArg.2.ArgErr)
  else if key = lit "service" then ({ m with Service := value }, d2.NextArg.2, none)
  else
    (m, d2.NextArg.2,
      some (.Err (lit "unrecognized subdirective " ++ [39] ++ d2.NextArg.2.Val ++ [39])))

/-- The loop `for d.NextBlock(0)` of `UnmarshalCaddyfile` (source lines
130-144), run for at most `fuel` passes: the handler it leaves and the error
it returns with, if it returns; `none` when the passes are used up. -/
def unmarshalLoop : Nat → HeadlessLogDownload → caddyfile.Dispenser →
    Option (HeadlessLogDownload × Option ConfigError)
  | 0, _, _ => none
  | fuel + 1, m, d =>
    if !(d.NextBlock 0).1 then some (m, none)
    else
      match subdirective m (d.NextBlock 0).2 with
      | (m1, _, some err) => some (m1, some err)
      | (m1, d1, none) => unmarshalLoop fuel m1 d1

/-- Go `(*HeadlessLogDownload).UnmarshalCaddyfile(d)`: the handler as the call
leaves it and the error returned (`none` for `nil`).  The loop is given one
pass more than there are tokens; the outer `none` stands for a loop that would
need more. -/
def HeadlessLogDownload.UnmarshalCaddyfile (m : HeadlessLogDownload)
    (d : caddyfile.Dispenser) : Option (HeadlessLogDownload × Option ConfigError) :=
  if !d.Next.1 then some (m, some (.Err (lit "expected token following filter")))
  else
    match unmarshalLoop (d.tokens.length + 1) m d.Next.2 with
    | none => none
    | some (m1, some err) => some (m1, some err)
    | some (m1, none) =>
      if m1.Service = [] then
        some (m1, some (.Errorf (lit "Please configure the service subdirective")))
      else some (m1, none)

/-- Go `parseCaddyfile(h)` on the dispenser of the helper: the handler returned
(`none` for `nil`) and the error. -/
def parseCaddyfile (d : caddyfile.Dispenser) :
    Option (Option HeadlessLogDownload × Option ConfigError) :=
  match HeadlessLogDownload.UnmarshalCaddyfile { Service := [] } d with
  | none => none
  | some (_, some err) => some (none, some err)
  | some (m, none) => some (some m, none)

/-- The block of a directive as it is written: one list of words for each line
between the braces, the name of a subdirective and its arguments. -/
abbrev Block := List (List GoString)

/-- The tokens of the words of one line. -/
def lineTokens (file : GoString) (line : Int) (words : List GoString) :
    List caddyfile.Token :=
  words.map (fun w => { File := file, Line := line, Text := w })

/-- The tokens of the lines of a block, the first of them on line `line`. -/
def linesTokens (file : GoString) : Int → Block → List caddyfile.Token
  | _, [] => []
  | line, words :: rest => lineTokens file line words ++ linesTokens file (line + 1) rest

/-- The tokens the handler's directive is read from: the name of the directive
and the opening brace on line 1, the lines of the block from line 2 on, and
the closing brace on a line of its own. -/
def blockTokens (file : GoString) (b : Block) : List caddyfile.Token :=
  [{ File := file, Line := 1, Text := headlessLogDownloadModule },
   { File := file, Line := 1, Text := lit "\x7b" }] ++
  linesTokens file 2 b ++
  [{ File := file, Line := 2 + (b.length : Int), Text := lit "\x7d" }]

/-- A word that is neither a brace nor broken over lines. -/
def plainWord (w : GoString) : Bool :=
  w ≠ lit "\x7b" && w ≠ lit "\x7d" && !w.contains 10

/-- A block of plain subdirectives: no line is empty and every word is plain. -/
def plainBlock (b : Block) : Bool :=
  b.all (fun words => words ≠ [] && words.all plainWord)

/-- The value the last `service` subdirective of a block gives: `none` when the
block has no `service` subdirective, the empty string when the last one has no
argument. -/
def lastService : Block → Option GoString
  | [] => none
  | words :: rest =>
    match lastService rest with
    | some v => some v
    | none => if words.head? = some (lit "service") then some (words.getD 1 []) else none

/-- What the loop of `UnmarshalCaddyfile` has to do on a block of plain
subdirectives, line by line: a line of more than two words is an argument
error, a line that does not start with `service` is an unrecognized
subdirective (reported with the last word of the line), a `service` line sets
the service to its argument. -/
def configure (m : HeadlessLogDownload) : Block → HeadlessLogDownload × Option ConfigError
  | [] => (m, none)
  | words :: rest =>
    if 2 < words.length then
      (m, some (.Err (lit "Wrong argument count or unexpected line ending after " ++
        [39] ++ words.getD 2 [] ++ [39])))
    else if words.head? = some (lit "service") then
      configure { m with Service := words.getD 1 [] } rest
    else
      (m, some (.Err (lit "unrecognized subdirective " ++ [39] ++
        words.getD (words.length - 1) [] ++ [39])))

/-- The dispenser over the tokens `before ++ cur :: after` with its cursor on
`cur`. -/
def caddyfile.Dispenser.on (before : List caddyfile.Token) (cur : caddyfile.Token)
    (after : List caddyfile.Token) (nesting : Int) : caddyfile.Dispenser :=
  { tokens := before ++ cur :: after, cursor := before.length, nesting := nesting }

/-- The cursor of the dispenser is on one of its tokens. -/
def caddyfile.Dispenser.valid (d : caddyfile.Dispenser) : Prop :=
  0 ≤ d.cursor ∧ d.cursor < (d.tokens.length : Int)

/-- The dispenser `d1` has the tokens of `d`, its cursor is on one of them and
is not before the cursor of `d`. -/
def caddyfile.Dispenser.reaches (d d1 : caddyfile.Dispenser) : Prop :=
  d1.tokens = d.tokens ∧ d.cursor ≤ d1.cursor ∧ d1.valid

/-! ## Reading an outcome -/

/-- The value the run wrote last under `name`, if it wrote one. -/
def published (effects : List Event) (name : GoString) : Option GoString :=
  effects.foldl
    (fun acc e =>
      match e with
      | .Set k v => if k = name then some v else acc
      | _ => acc)
    none

/-- How many times the run called the next handler. -/
def nextCalls (effects : List Event) : Nat := effects.count .next

/-- The response status the run wrote, if it wrote one. -/
def writtenStatus (effects : List Event) : Option Int :=
  effects.findSome? (fun e =>
    match e with
    | .WriteHeader c => some c
    | _ => none)

/-- The text after the last `:` of `s` (all of `s` when it has none). -/
def afterLastColon (s : GoString) : GoString :=
  match strings.LastIndexByte s (ch ':') with
  | some i => s.drop (i + 1)
  | none => s

/-- Scenario inputs of the specification: the configured service. -/
def scenarioService : HeadlessLogDownload := { Service := lit "http://backend.internal" }

/-- Scenario inputs of the specification: the inbound request `GET /logs/abc?x=1`. -/
def scenarioRequest : http.Request :=
  { Path := lit "/logs/abc", RawQuery := lit "x=1", Header := [] }

/-- A backend answer with status 200 and the given body. -/
def okBody (body : GoString) : Option http.Response :=
  some { StatusCode := 200, Body := some body }

/-- The five variables of the handler. -/
def redirectVariables : List GoString :=
  [redirectURLVariable, redirectHostVariable, redirectHostAndPortVariable,
   redirectPathVariable, redirectQueryVariable]

/-- Whether the run wrote the variable `name`. -/
def wrote (effects : List Event) (name : GoString) : Bool :=
  (published effects name).isSome

/-- Percent-decoding in the words of the specification: every `%XY` with two
hexadecimal digits is replaced by the byte they denote, every other byte is
kept. -/
def percentDecode : GoString → GoString
  | [] => []
  | c :: rest =>
    if c = ch '%' then
      match rest with
      | a :: b :: rest2 =>
        if url.ishex a && url.ishex b then
          (url.unhex a * 16 + url.unhex b) :: percentDecode rest2
        else c :: percentDecode (a :: b :: rest2)
      | _ => c :: rest
    else c :: percentDecode rest

/-- Every `+` of `s` turned into a space. -/
def plusToSpace (s : GoString) : GoString :=
  s.map (fun c => if c = ch '+' then ch ' ' else c)

/-- The run of the scenarios of the specification for a backend that answers
status 200 with the given body; the next handler returns `nil`. -/
def runScenario (body : GoString) : Outcome :=
  scenarioService.ServeHTTP scenarioRequest (okBody body) none

/-- The outbound requests of a run: method and URL of each, in order. -/
def requests (effects : List Event) : List (GoString × GoString) :=
  effects.filterMap (fun e =>
    match e with
    | .Do req => some (req.Method, req.URL)
    | _ => none)

/-- The table of the Caddy replacer (`caddy.Replacer.static`): the value of
each variable that has one. -/
abbrev Replacer := GoString → Option GoString

/-- Go `(*caddy.Replacer).Set(name, value)`: the map write `static[name] = value`. -/
def Replacer.Set (repl : Replacer) (name value : GoString) : Replacer :=
  fun k => if k = name then some value else repl k

/-- The replacer table after the writes of a run, in order, on the table
`repl`. -/
def replAfter (repl : Replacer) (effects : List Event) : Replacer :=
  effects.foldl
    (fun t e =>
      match e with
      | .Set k v => Replacer.Set t k v
      | _ => t)
    repl

/-- The port of the published host:port value as the code derives it: the
explicit port of the URL if it has one, else `80` for scheme `http`, `443` for
scheme `https`, and nothing for any other scheme. -/
def portOrDefault (u : url.URL) : GoString :=
  if u.Port ≠ [] then u.Port
  else if u.Scheme = lit "http" then lit "80"
  else if u.Scheme = lit "https" then lit "443"
  else []

/-- The values a header map holds for the header name with canonical form
`name`: the values of every entry whose key has that canonical form, in the
order of the entries. -/
def valuesByName (h : http.Header) (name : GoString) : List GoString :=
  (h.filter (fun kvv => textproto.CanonicalMIMEHeaderKey kvv.1 = name)).flatMap
    (fun kvv => kvv.2)

/-- Scenario inputs: an inbound request with a cookie header of two values, two
content types and an accept header. -/
def requestWithHeaders : http.Request :=
  { Path := lit "/logs/abc", RawQuery := lit "x=1",
    Header := [(lit "Cookie", [lit "a=1", lit "b=2"]),
               (lit "Content-Type", [lit "text/plain", lit "text/html"]),
               (lit "Accept", [lit "text/event-stream"])] }

/-! ## Lemmas on the handler -/

/-- With a lookup URL that parses, a 200 answer and a body that parses, the
handler goes on to publish the parsed URL. -/
theorem ServeHTTP_publish (m : HeadlessLogDownload) (r : http.Request) (next : Option GoError)
    (body : GoString) (u : url.URL) (req0 : http.Outbound)
    (hreq : http.NewRequest (lit "GET") (lookupURL m r) = some req0)
    (hparse : url.Parse body = .ok u) :
    m.ServeHTTP r (okBody body) next
      = publish u next [.Do { req0 with Header := lookupHeader r }] := by
  simp [HeadlessLogDownload.ServeHTTP, okBody, hreq, hparse, http.StatusOK]

theorem published_append_Set (before : List Event) (k v name : GoString) :
    published (before ++ [.Set k v]) name
      = if k = name then some v else published before name := by
  simp [published, List.foldl_append]

theorem published_Do (req : http.Outbound) (name : GoString) :
    published [.Do req] name = none := by
  simp [published]

theorem variables_distinct :
    redirectURLVariable ≠ redirectHostAndPortVariable ∧
    redirectURLVariable ≠ redirectHostVariable ∧
    redirectURLVariable ≠ redirectPathVariable ∧
    redirectURLVariable ≠ redirectQueryVariable ∧
    redirectHostAndPortVariable ≠ redirectHostVariable ∧
    redirectHostAndPortVariable ≠ redirectPathVariable ∧
    redirectHostAndPortVariable ≠ redirectQueryVariable ∧
    redirectHostVariable ≠ redirectPathVariable ∧
    redirectHostVariable ≠ redirectQueryVariable ∧
    redirectPathVariable ≠ redirectQueryVariable := by
  decide

/-- The host:port value the handler publishes for a parsed URL, whether or not
the query decodes afterwards. -/
theorem publish_hostPort (u : url.URL) (next : Option GoError) (req : http.Outbound) :
    published (publish u next [.Do req]).effects redirectHostAndPortVariable
      = some (redirectHostAndPort u) := by
  obtain ⟨h1, h2, h3, h4, h5, h6, h7, h8, h9, h10⟩ := variables_distinct
  unfold publish
  cases url.QueryUnescape u.RawQuery <;>
    simp [published, List.foldl_append, h1, h5, h6, h7, h5.symm, h6.symm, h7.symm, h1.symm]

/-- What a run that decodes the query has published and done. -/
theorem publish_ok (u : url.URL) (next : Option GoError) (req : http.Outbound) (q : GoString)
    (hq : url.QueryUnescape u.RawQuery = .ok q) :
    published (publish u next [.Do req]).effects redirectURLVariable = some u.String ∧
    published (publish u next [.Do req]).effects redirectHostVariable = some u.Host ∧
    published (publish u next [.Do req]).effects redirectPathVariable = some u.Path ∧
    published (publish u next [.Do req]).effects redirectQueryVariable = some q ∧
    nextCalls (publish u next [.Do req]).effects = 1 ∧
    writtenStatus (publish u next [.Do req]).effects = none ∧
    (publish u next [.Do req]).err = next := by
  obtain ⟨h1, h2, h3, h4, h5, h6, h7, h8, h9, h10⟩ := variables_distinct
  simp [publish, hq, published, nextCalls, writtenStatus, List.foldl_append, h2, h3, h4,
    h8, h9, h10, h1.symm, h2.symm, h3.symm, h4.symm, h5.symm, h6, h7, h8.symm, h9.symm,
    h10.symm]

/-- What a run whose query does not decode has published and done. -/
theorem publish_error (u : url.URL) (next : Option GoError) (req : http.Outbound)
    (e : url.Error) (hq : url.QueryUnescape u.RawQuery = .error e) :
    published (publish u next [.Do req]).effects redirectURLVariable = some u.String ∧
    published (publish u next [.Do req]).effects redirectHostVariable = some u.Host ∧
    published (publish u next [.Do req]).effects redirectPathVariable = some u.Path ∧
    published (publish u next [.Do req]).effects redirectQueryVariable = none ∧
    nextCalls (publish u next [.Do req]).effects = 0 ∧
    writtenStatus (publish u next [.Do req]).effects = none ∧
    (publish u next [.Do req]).err = some (.url e) := by
  obtain ⟨h1, h2, h3, h4, h5, h6, h7, h8, h9, h10⟩ := variables_distinct
  simp [publish, hq, published, nextCalls, writtenStatus, List.foldl_append, h2, h3, h4,
    h8, h9, h10, h1.symm, h2.symm, h3.symm, h4.symm, h5.symm, h6, h7, h8.symm, h9.symm,
    h10.symm]

/-- A run that does not reach the parsed URL writes no variable and does not
call the next handler. -/
theorem ServeHTTP_stopped (m : HeadlessLogDownload) (r : http.Request)
    (lookup : Option http.Response) (next : Option GoError)
    (h : ∀ body u, lookup = okBody body → url.Parse body = .ok u →
      http.NewRequest (lit "GET") (lookupURL m r) = none) :
    (∀ name, published (m.ServeHTTP r lookup next).effects name = none) ∧
    nextCalls (m.ServeHTTP r lookup next).effects = 0 := by
  unfold HeadlessLogDownload.ServeHTTP
  cases hreq : http.NewRequest (lit "GET") (lookupURL m r) with
  | none => simp [published, nextCalls]
  | some req0 =>
    cases lookup with
    | none => simp [published, nextCalls]
    | some resp =>
      obtain ⟨code, rbody⟩ := resp
      by_cases hs : code = http.StatusOK
      · cases rbody with
        | none => simp [hs, published, nextCalls]
        | some body =>
          cases hp : url.Parse body with
          | error e => simp [hs, hp, published, nextCalls]
          | ok u =>
            have hcode : code = 200 := hs
            subst hcode
            have := h body u rfl hp
            simp [hreq] at this
      · simp [hs, published, nextCalls]

theorem LastIndex_single_none (c : Nat) (p : GoString) (h : c ∉ p) :
    strings.LastIndex p [c] = none := by
  induction p with
  | nil => simp [strings.LastIndex]
  | cons d p ih =>
    have hd : c ≠ d := fun hcd => h (hcd ▸ List.mem_cons_self _ _)
    have hp : c ∉ p := fun hcp => h (List.mem_cons_of_mem _ hcp)
    simp [strings.LastIndex, ih hp, hd]

theorem LastIndex_append_single (c : Nat) (a p : GoString) (h : c ∉ p) :
    strings.LastIndex (a ++ c :: p) [c] = some a.length := by
  induction a with
  | nil => simp [strings.LastIndex, LastIndex_single_none c p h]
  | cons d a ih => simp [strings.LastIndex, ih]

/-- The text after the last colon of `a:p` is `p` when `p` has no colon. -/
theorem afterLastColon_append (a p : GoString) (h : ch ':' ∉ p) :
    afterLastColon (a ++ lit ":" ++ p) = p := by
  have hlit : lit ":" = [ch ':'] := rfl
  simp only [afterLastColon, strings.LastIndexByte, hlit, List.append_assoc,
    List.singleton_append, LastIndex_append_single _ a p h]
  simp

theorem validOptionalPort_tail (s : GoString) (h : url.validOptionalPort s = true) :
    ch ':' ∉ s.tail := by
  cases s with
  | nil => simp
  | cons c digits =>
    simp only [url.validOptionalPort, Bool.and_eq_true, List.all_eq_true] at h
    intro hmem
    have := h.2 _ hmem
    simp only [Bool.not_eq_true', Bool.or_eq_false_iff, decide_eq_false_iff_not, not_lt,
      gt_iff_lt] at this
    exact absurd this.2 (by decide)

/-- The port `URL.Port` returns has no colon. -/
theorem Port_no_colon (u : url.URL) : ch ':' ∉ u.Port := by
  have hsnd : ∀ (c : Prop) [Decidable c] (a b p : GoString),
      (if c then (a, p) else (b, p)).2 = p := by
    intro c _ a b p
    split_ifs <;> rfl
  unfold url.URL.Port url.splitHostPort
  simp only [hsnd]
  generalize strings.LastIndexByte u.Host (ch ':') = colon
  cases colon with
  | none => simp
  | some i =>
    by_cases hv : url.validOptionalPort (u.Host.drop i) = true
    · have := validOptionalPort_tail _ hv
      simpa [hv, List.tail_drop] using this
    · simp [hv]

/-- The port the handler computes has no colon. -/
theorem redirectPort_no_colon (u : url.URL) : ch ':' ∉ redirectPort u := by
  unfold redirectPort
  split_ifs with h1 h2 h3
  · decide
  · decide
  · exact Port_no_colon u
  · exact Port_no_colon u

theorem ishex_ne_plus (a : Nat) (h : url.ishex a = true) : a ≠ ch '+' := by
  intro ha
  subst ha
  exact absurd h (by decide)

theorem plusToSpace_cons (c : Nat) (s : GoString) :
    plusToSpace (c :: s) = (if c = ch '+' then ch ' ' else c) :: plusToSpace s := rfl

theorem unescapeBuild_cons_plus (rest : GoString) :
    url.unescapeBuild .encodeQueryComponent (ch '+' :: rest)
      = ch ' ' :: url.unescapeBuild .encodeQueryComponent rest := by
  have hpp : ch '+' ≠ ch '%' := by decide
  conv_lhs => unfold url.unescapeBuild
  simp only [if_neg hpp, if_true]

theorem unescapeBuild_cons_other (c : Nat) (rest : GoString) (h1 : c ≠ ch '%')
    (h2 : c ≠ ch '+') :
    url.unescapeBuild .encodeQueryComponent (c :: rest)
      = c :: url.unescapeBuild .encodeQueryComponent rest := by
  conv_lhs => unfold url.unescapeBuild
  simp only [if_neg h1, if_neg h2]

theorem percentDecode_cons_other (c : Nat) (rest : GoString) (h : c ≠ ch '%') :
    percentDecode (c :: rest) = c :: percentDecode rest := by
  conv_lhs => unfold percentDecode
  simp only [if_neg h]

/-- On a query that `unescape` accepts, its second loop computes the
percent-decoding of the query with every `+` turned into a space, and changes
nothing when there is neither an escape nor a `+`. -/
theorem unescapeBuild_query : ∀ (n : Nat) (s : GoString), s.length ≤ n →
    ∀ (k : Nat) (hasPlus : Bool),
      url.unescapeScan .encodeQueryComponent s = .ok (k, hasPlus) →
      url.unescapeBuild .encodeQueryComponent s = percentDecode (plusToSpace s) ∧
      (k = 0 → hasPlus = false → url.unescapeBuild .encodeQueryComponent s = s) := by
  have hpp : ch '%' ≠ ch '+' := by decide
  have hsp : ch ' ' ≠ ch '%' := by decide
  intro n
  induction n with
  | zero =>
    intro s hs k hasPlus _
    have : s = [] := List.length_eq_zero.mp (Nat.le_zero.mp hs)
    subst this
    simp [url.unescapeBuild, percentDecode, plusToSpace]
  | succ n ih =>
    intro s hs k hasPlus hscan
    cases s with
    | nil => simp [url.unescapeBuild, percentDecode, plusToSpace]
    | cons c rest =>
      by_cases hc : c = ch '%'
      · subst hc
        cases rest with
        | nil => simp [url.unescapeScan] at hscan
        | cons a rest1 =>
          cases rest1 with
          | nil => simp [url.unescapeScan] at hscan
          | cons b rest2 =>
            simp only [url.unescapeScan, if_true] at hscan
            by_cases hab : url.ishex a = true ∧ url.ishex b = true
            · obtain ⟨ha, hb⟩ := hab
              simp only [ha, hb, Bool.not_true, Bool.or_self, Bool.false_eq_true, if_false,
                false_and, reduceCtorEq] at hscan
              cases hr : url.unescapeScan .encodeQueryComponent rest2 with
              | error e => simp [hr] at hscan
              | ok res =>
                obtain ⟨k2, p2⟩ := res
                simp only [hr, Except.ok.injEq, Prod.mk.injEq] at hscan
                have hlen : rest2.length ≤ n := by simp at hs; omega
                have h2 := (ih rest2 hlen k2 p2 hr).1
                constructor
                · rw [plusToSpace_cons, plusToSpace_cons, plusToSpace_cons, if_neg hpp,
                    if_neg (ishex_ne_plus a ha), if_neg (ishex_ne_plus b hb)]
                  simp only [url.unescapeBuild, percentDecode, if_true, ha, hb, Bool.and_self, h2]
                · intro hk
                  omega
            · have hbad : (!url.ishex a || !url.ishex b) = true := by
                cases h1 : url.ishex a <;> cases h2 : url.ishex b <;> simp_all
              simp [hbad] at hscan
      · by_cases hplus : c = ch '+'
        · subst hplus
          unfold url.unescapeScan at hscan
          simp only [if_neg (Ne.symm hpp), if_true] at hscan
          cases hr : url.unescapeScan .encodeQueryComponent rest with
          | error e => simp [hr] at hscan
          | ok res =>
            obtain ⟨k2, p2⟩ := res
            simp only [hr, Except.ok.injEq, Prod.mk.injEq, decide_True] at hscan
            have hlen : rest.length ≤ n := by simp at hs; omega
            have h2 := (ih rest hlen k2 p2 hr).1
            constructor
            · rw [plusToSpace_cons, if_pos rfl, unescapeBuild_cons_plus,
                percentDecode_cons_other _ _ hsp, h2]
            · intro _ hfalse
              rw [hfalse] at hscan
              exact absurd hscan.2 (by decide)
        · unfold url.unescapeScan at hscan
          simp only [if_neg hc, if_neg hplus, reduceCtorEq, or_self, false_and,
            if_false] at hscan
          have hlen : rest.length ≤ n := by simp at hs; omega
          have h2 := ih rest hlen k hasPlus hscan
          constructor
          · rw [plusToSpace_cons, if_neg hplus, unescapeBuild_cons_other _ _ hc hplus,
              percentDecode_cons_other _ _ hc, h2.1]
          · intro hk hp
            rw [unescapeBuild_cons_other _ _ hc hplus, h2.2 hk hp]

/-- What `url.QueryUnescape` returns when it succeeds: the percent-decoding of
its argument with every `+` turned into a space. -/
theorem QueryUnescape_eq (s q : GoString) (h : url.QueryUnescape s = .ok q) :
    q = percentDecode (plusToSpace s) := by
  unfold url.QueryUnescape url.unescape at h
  cases hr : url.unescapeScan .encodeQueryComponent s with
  | error e => simp [hr] at h
  | ok res =>
    obtain ⟨k, p⟩ := res
    obtain ⟨h1, h2⟩ := unescapeBuild_query s.length s (Nat.le_refl _) k p hr
    simp only [hr] at h
    split_ifs at h with hkp
    · have := h2 hkp.1 hkp.2
      simp only [Except.ok.injEq] at h
      rw [← h1, this, h]
    · simp only [Except.ok.injEq] at h
      rw [← h, h1]

theorem lookupURL_eq (m : HeadlessLogDownload) (r : http.Request) :
    lookupURL m r
      = m.Service ++ r.Path ++ (if r.RawQuery = [] then [] else lit "?" ++ r.RawQuery) := by
  unfold lookupURL
  by_cases h : r.RawQuery = [] <;> simp [h]

theorem NewRequest_some (method u : GoString) (req : http.Outbound)
    (h : http.NewRequest method u = some req) : req.Method = method ∧ req.URL = u := by
  unfold http.NewRequest at h
  cases hp : url.Parse u with
  | error e => simp [hp] at h
  | ok v =>
    simp only [hp, Option.some.injEq] at h
    subst h
    exact ⟨rfl, rfl⟩

/-- The outbound requests of a run: none when the lookup URL does not parse, one
otherwise. -/
theorem requests_ServeHTTP (m : HeadlessLogDownload) (r : http.Request)
    (lookup : Option http.Response) (next : Option GoError) :
    requests (m.ServeHTTP r lookup next).effects
      = if (http.NewRequest (lit "GET") (lookupURL m r)).isSome
        then [(lit "GET", lookupURL m r)] else [] := by
  unfold HeadlessLogDownload.ServeHTTP
  cases hreq : http.NewRequest (lit "GET") (lookupURL m r) with
  | none => simp [requests]
  | some req0 =>
    obtain ⟨hm, hu⟩ := NewRequest_some _ _ _ hreq
    cases lookup with
    | none => simp [requests, hm, hu]
    | some resp =>
      obtain ⟨code, rbody⟩ := resp
      by_cases hs : code = http.StatusOK
      · cases rbody with
        | none => simp [hs, requests, hm, hu]
        | some body =>
          cases hp : url.Parse body with
          | error e => simp [hs, hp, requests, hm, hu]
          | ok u =>
            cases hq : url.QueryUnescape u.RawQuery <;>
              simp [hs, hp, publish, hq, requests, hm, hu]
      · simp [hs, requests, hm, hu]

/-- The table after a run holds, for each variable, the value the run wrote last
under it, and the value it had before when the run wrote none. -/
theorem replAfter_eq (repl : Replacer) (effects : List Event) (k : GoString) :
    replAfter repl effects k
      = match published effects k with
        | some v => some v
        | none => repl k := by
  induction effects using List.reverseRecOn with
  | nil => simp [replAfter, published]
  | append_singleton l e ih =>
    cases e with
    | Set a v =>
      have h1 : replAfter repl (l ++ [.Set a v]) = Replacer.Set (replAfter repl l) a v := by
        simp [replAfter, List.foldl_append]
      have h2 : published (l ++ [.Set a v]) k
          = if a = k then some v else published l k := by
        simp [published, List.foldl_append]
      rw [h1, h2]
      by_cases hak : a = k
      · subst hak
        simp [Replacer.Set]
      · have hka : ¬ k = a := fun h => hak h.symm
        simp [Replacer.Set, hak, hka, ih]
    | Do req =>
      have h1 : replAfter repl (l ++ [.Do req]) = replAfter repl l := by
        simp [replAfter, List.foldl_append]
      have h2 : published (l ++ [.Do req]) k = published l k := by
        simp [published, List.foldl_append]
      rw [h1, h2, ih]
    | WriteHeader c =>
      have h1 : replAfter repl (l ++ [.WriteHeader c]) = replAfter repl l := by
        simp [replAfter, List.foldl_append]
      have h2 : published (l ++ [.WriteHeader c]) k = published l k := by
        simp [published, List.foldl_append]
      rw [h1, h2, ih]
    | next =>
      have h1 : replAfter repl (l ++ [.next]) = replAfter repl l := by
        simp [replAfter, List.foldl_append]
      have h2 : published (l ++ [.next]) k = published l k := by
        simp [published, List.foldl_append]
      rw [h1, h2, ih]

/-- A run that reaches the parsed URL writes no variable other than the five. -/
theorem publish_other (u : url.URL) (next : Option GoError) (req : http.Outbound)
    (k : GoString) (hk : k ∉ redirectVariables) :
    published (publish u next [.Do req]).effects k = none := by
  simp only [redirectVariables, List.mem_cons, List.mem_singleton, List.not_mem_nil,
    or_false, not_or] at hk
  obtain ⟨k1, k2, k3, k4, k5⟩ := hk
  have e1 : ¬ redirectURLVariable = k := fun h => k1 h.symm
  have e2 : ¬ redirectHostVariable = k := fun h => k2 h.symm
  have e3 : ¬ redirectHostAndPortVariable = k := fun h => k3 h.symm
  have e4 : ¬ redirectPathVariable = k := fun h => k4 h.symm
  have e5 : ¬ redirectQueryVariable = k := fun h => k5 h.symm
  unfold publish
  cases url.QueryUnescape u.RawQuery <;>
    simp [published, List.foldl_append, e1, e2, e3, e4, e5]

/-- The host the handler publishes for a parsed URL, whether or not the query
decodes afterwards. -/
theorem publish_host (u : url.URL) (next : Option GoError) (req : http.Outbound) :
    published (publish u next [.Do req]).effects redirectHostVariable = some u.Host := by
  cases hq : url.QueryUnescape u.RawQuery with
  | ok q => exact (publish_ok u next req q hq).2.1
  | error e => exact (publish_error u next req e hq).2.1

theorem redirectPort_eq (u : url.URL) : redirectPort u = portOrDefault u := by
  unfold redirectPort portOrDefault
  by_cases h : u.Port = [] <;> simp [h]

theorem values_store (h : http.Header) (key name : GoString) (vv : List GoString) :
    http.Header.values (http.Header.store h key vv) name
      = if key = name then vv else http.Header.values h name := by
  induction h with
  | nil => simp [http.Header.store, http.Header.values]
  | cons e rest ih =>
    obtain ⟨k, old⟩ := e
    by_cases hk : k = key
    · subst hk
      by_cases hn : k = name <;> simp [http.Header.store, http.Header.values, hn]
    · by_cases hn : k = name
      · subst hn
        have hne : ¬ key = k := fun h => hk h.symm
        simp [http.Header.store, http.Header.values, hk, hne]
      · simp [http.Header.store, http.Header.values, hk, hn, ih]

theorem values_Add (h : http.Header) (key v name : GoString) :
    http.Header.values (http.Header.Add h key v) name
      = if textproto.CanonicalMIMEHeaderKey key = name
        then http.Header.values h name ++ [v] else http.Header.values h name := by
  unfold http.Header.Add
  rw [values_store]
  by_cases hk : textproto.CanonicalMIMEHeaderKey key = name
  · subst hk
    simp
  · simp [hk]

theorem values_addAll (vv : List GoString) (h : http.Header) (key name : GoString) :
    http.Header.values (vv.foldl (fun h v => http.Header.Add h key v) h) name
      = if textproto.CanonicalMIMEHeaderKey key = name
        then http.Header.values h name ++ vv else http.Header.values h name := by
  induction vv generalizing h with
  | nil => simp
  | cons v vv ih =>
    rw [List.foldl_cons, ih, values_Add]
    by_cases hk : textproto.CanonicalMIMEHeaderKey key = name <;> simp [hk]

theorem values_copy (entries : http.Header) (h : http.Header) (name : GoString) :
    http.Header.values
        (entries.foldl
          (fun h kvv => kvv.2.foldl (fun h v => http.Header.Add h kvv.1 v) h) h) name
      = http.Header.values h name ++ valuesByName entries name := by
  induction entries generalizing h with
  | nil => simp [valuesByName]
  | cons e rest ih =>
    rw [List.foldl_cons, ih, values_addAll]
    by_cases hk : textproto.CanonicalMIMEHeaderKey e.1 = name <;>
      simp [hk, valuesByName, List.filter_cons]

/-- The headers of the outbound request, name by name. -/
theorem values_lookupHeader (r : http.Request) (name : GoString) :
    http.Header.values (lookupHeader r) name
      = if name = lit "Content-Type" then [lit "*/*"] else valuesByName r.Header name := by
  have hct : textproto.CanonicalMIMEHeaderKey (lit "Content-Type") = lit "Content-Type" := by
    decide
  unfold lookupHeader http.Header.Set
  rw [values_store, hct, values_copy]
  by_cases hn : name = lit "Content-Type"
  · subst hn
    simp
  · have hn2 : ¬ lit "Content-Type" = name := fun h => hn h.symm
    simp [hn, hn2, http.Header.values]

/-- In a header map with canonical keys, no two alike, the values of a name are
the values stored under it. -/
theorem valuesByName_canonical (h : http.Header) (name : GoString)
    (hcanon : ∀ kvv ∈ h, textproto.CanonicalMIMEHeaderKey kvv.1 = kvv.1)
    (hnodup : (h.map (fun kvv => kvv.1)).Nodup) :
    valuesByName h name = http.Header.values h name := by
  induction h with
  | nil => simp [valuesByName, http.Header.values]
  | cons e rest ih =>
    obtain ⟨k, vv⟩ := e
    have hk : textproto.CanonicalMIMEHeaderKey k = k := hcanon (k, vv) (List.mem_cons_self _ _)
    have hrest : ∀ kvv ∈ rest, textproto.CanonicalMIMEHeaderKey kvv.1 = kvv.1 :=
      fun kvv hmem => hcanon kvv (List.mem_cons_of_mem _ hmem)
    simp only [List.map_cons, List.nodup_cons] at hnodup
    have ih2 := ih hrest hnodup.2
    by_cases hn : k = name
    · subst hn
      have hnone : valuesByName rest k = [] := by
        simp only [valuesByName, List.flatMap_eq_nil_iff, List.mem_filter, decide_eq_true_eq,
          and_imp]
        intro kvv hmem hc
        rw [hrest kvv hmem] at hc
        exact absurd (List.mem_map.mpr ⟨kvv, hmem, hc⟩) hnodup.1
      have hcons : valuesByName ((k, vv) :: rest) k = vv ++ valuesByName rest k := by
        simp [valuesByName, List.filter_cons, hk]
      rw [hcons, hnone]
      simp [http.Header.values]
    · have hcons : valuesByName ((k, vv) :: rest) name = valuesByName rest name := by
        simp [valuesByName, List.filter_cons, hk, hn]
      rw [hcons, ih2]
      simp [http.Header.values, hn]

/-- Every outbound request of a run carries the headers `lookupHeader` builds. -/
theorem Do_mem_ServeHTTP (m : HeadlessLogDownload) (r : http.Request)
    (lookup : Option http.Response) (next : Option GoError) (req : http.Outbound)
    (h : Event.Do req ∈ (m.ServeHTTP r lookup next).effects) :
    req.Header = lookupHeader r := by
  unfold HeadlessLogDownload.ServeHTTP at h
  cases hreq : http.NewRequest (lit "GET") (lookupURL m r) with
  | none => simp [hreq] at h
  | some req0 =>
    cases lookup with
    | none =>
      simp [hreq] at h
      rw [h]
    | some resp =>
      obtain ⟨code, rbody⟩ := resp
      by_cases hs : code = http.StatusOK
      · cases rbody with
        | none =>
          simp [hreq, hs] at h
          rw [h]
        | some body =>
          cases hp : url.Parse body with
          | error e =>
            simp [hreq, hs, hp] at h
            rw [h]
          | ok u =>
            cases hq : url.QueryUnescape u.RawQuery <;>
              · simp [hreq, hs, hp, publish, hq] at h
                rw [h]
      · simp [hreq, hs] at h
        rw [h]

/-! ## Lemmas on the dispenser -/

open caddyfile in
theorem on_snoc (before : List Token) (cur t : Token) (after : List Token) (n : Int) :
    ({ tokens := before ++ cur :: t :: after, cursor := (before.length : Int) + 1,
       nesting := n } : Dispenser) = Dispenser.on (before ++ [cur]) t after n := by
  simp [Dispenser.on]

theorem getElem?_append_cons {α : Type} (l : List α) (a : α) (r : List α) :
    (l ++ a :: r)[l.length]? = some a := by
  induction l with
  | nil => simp
  | cons x l ih => simpa using ih

theorem getElem?_append_cons_succ {α : Type} (l : List α) (a b : α) (r : List α) :
    (l ++ a :: b :: r)[l.length + 1]? = some b := by
  induction l with
  | nil => simp
  | cons x l ih => simpa using ih

theorem getElem?_append_singleton_succ {α : Type} (l : List α) (a : α) :
    (l ++ [a])[l.length + 1]? = none := by
  simp

open caddyfile in
theorem token_on (before : List Token) (cur : Token) (after : List Token) (n : Int) :
    (Dispenser.on before cur after n).token (before.length : Int) = some cur := by
  have h1 : ¬ ((before.length : Int) < 0) := by omega
  simp only [Dispenser.on, Dispenser.token, h1, if_false, Int.toNat_ofNat]
  exact getElem?_append_cons before cur after

open caddyfile in
theorem token_on_succ (before : List Token) (cur t : Token) (after : List Token) (n : Int) :
    (Dispenser.on before cur (t :: after) n).token ((before.length : Int) + 1) = some t := by
  have h : ((before.length : Int) + 1).toNat = before.length + 1 := by omega
  have h2 : ¬ ((before.length : Int) + 1 < 0) := by omega
  simp only [Dispenser.on, Dispenser.token, h, h2, if_false]
  exact getElem?_append_cons_succ before cur t after

open caddyfile in
theorem Val_on (before : List Token) (cur : Token) (after : List Token) (n : Int) :
    (Dispenser.on before cur after n).Val = cur.Text := by
  have h := token_on before cur after n
  have h1 : ¬ ((before.length : Int) < 0) := by omega
  have h2 : ¬ ((before.length : Int) ≥ ((before ++ cur :: after).length : Int)) := by
    simp only [List.length_append, List.length_cons]
    push_cast
    omega
  unfold Dispenser.Val
  simp only [Dispenser.on] at h ⊢
  simp only [h1, h2, or_self, if_false, h]

open caddyfile in
theorem Next_on_cons (before : List Token) (cur t : Token) (after : List Token) (n : Int) :
    (Dispenser.on before cur (t :: after) n).Next
      = (true, Dispenser.on (before ++ [cur]) t after n) := by
  have h : (before.length : Int) < ((before ++ cur :: t :: after).length : Int) - 1 := by
    simp only [List.length_append, List.length_cons]
    push_cast
    omega
  rw [← on_snoc]
  simp only [Dispenser.Next, Dispenser.on, h, if_true]

open caddyfile in
theorem Next_on_nil (before : List Token) (cur : Token) (n : Int) :
    (Dispenser.on before cur [] n).Next = (false, Dispenser.on before cur [] n) := by
  have h : ¬ ((before.length : Int) < ((before ++ [cur]).length : Int) - 1) := by
    simp only [List.length_append, List.length_cons, List.length_nil]
    push_cast
    omega
  simp only [Dispenser.Next, Dispenser.on, h, if_false]

open caddyfile in
theorem numLineBreaks_on (before : List Token) (cur : Token) (after : List Token) (n : Int) :
    (Dispenser.on before cur after n).numLineBreaks (before.length : Int)
      = (strings.Count cur.Text 10 : Nat) := by
  have h := token_on before cur after n
  have h1 : ¬ ((before.length : Int) < 0) := by omega
  have h2 : ¬ ((before.length : Int) ≥ ((before ++ cur :: after).length : Int)) := by
    simp only [List.length_append, List.length_cons]
    push_cast
    omega
  unfold Dispenser.numLineBreaks
  simp only [Dispenser.on] at h ⊢
  simp only [h1, h2, or_self, if_false, h]

open caddyfile in
theorem nextOnSameLine_on_cons (before : List Token) (cur t : Token) (after : List Token)
    (n : Int) :
    (Dispenser.on before cur (t :: after) n).nextOnSameLine
      = if cur.File = t.File ∧ cur.Line + (strings.Count cur.Text 10 : Nat) = t.Line
        then (true, Dispenser.on (before ++ [cur]) t after n)
        else (false, Dispenser.on before cur (t :: after) n) := by
  have h0 := token_on before cur (t :: after) n
  have h1 := token_on_succ before cur t after n
  have hb := numLineBreaks_on before cur (t :: after) n
  have c1 : ¬ ((before.length : Int) < 0) := by omega
  have c2 : ¬ ((before.length : Int) ≥ ((before ++ cur :: t :: after).length : Int)) := by
    simp only [List.length_append, List.length_cons]
    push_cast
    omega
  have c3 : (before.length : Int) < ((before ++ cur :: t :: after).length : Int) - 1 := by
    simp only [List.length_append, List.length_cons]
    push_cast
    omega
  rw [← on_snoc]
  unfold Dispenser.nextOnSameLine
  simp only [Dispenser.on] at h0 h1 hb ⊢
  simp only [c1, c2, c3, if_false, h0, h1, hb, true_and]

open caddyfile in
theorem nextOnSameLine_on_nil (before : List Token) (cur : Token) (n : Int) :
    (Dispenser.on before cur [] n).nextOnSameLine = (false, Dispenser.on before cur [] n) := by
  have h0 := token_on before cur [] n
  have c1 : ¬ ((before.length : Int) < 0) := by omega
  have c2 : ¬ ((before.length : Int) ≥ ((before ++ [cur]).length : Int)) := by
    simp only [List.length_append, List.length_cons, List.length_nil]
    push_cast
    omega
  have c3 : ¬ ((before.length : Int) < ((before ++ [cur]).length : Int) - 1) := by
    simp only [List.length_append, List.length_cons, List.length_nil]
    push_cast
    omega
  have h1 : (Dispenser.on before cur [] n).token ((before.length : Int) + 1) = none := by
    have h : ((before.length : Int) + 1).toNat = before.length + 1 := by omega
    have h2 : ¬ ((before.length : Int) + 1 < 0) := by omega
    simp only [Dispenser.on, Dispenser.token, h, h2, if_false]
    exact getElem?_append_singleton_succ before cur
  unfold Dispenser.nextOnSameLine
  simp only [Dispenser.on] at h0 h1 ⊢
  simp only [c1, c2, if_false, h0, h1]

open caddyfile in
theorem NextArg_on_same (before : List Token) (cur t : Token) (after : List Token) (n : Int)
    (hfile : cur.File = t.File) (hline : cur.Line + (strings.Count cur.Text 10 : Nat) = t.Line)
    (hbrace : t.Text ≠ lit "\x7b") :
    (Dispenser.on before cur (t :: after) n).NextArg
      = (true, Dispenser.on (before ++ [cur]) t after n) := by
  have hc : cur.File = t.File ∧ cur.Line + (strings.Count cur.Text 10 : Nat) = t.Line :=
    ⟨hfile, hline⟩
  have hs : (Dispenser.on before cur (t :: after) n).nextOnSameLine
      = (true, Dispenser.on (before ++ [cur]) t after n) := by
    rw [nextOnSameLine_on_cons, if_pos hc]
  unfold Dispenser.NextArg
  simp only [hs, Bool.not_true, Bool.false_eq_true, if_false, Val_on, hbrace]

open caddyfile in
theorem NextArg_on_other (before : List Token) (cur t : Token) (after : List Token) (n : Int)
    (h : ¬ (cur.File = t.File ∧ cur.Line + (strings.Count cur.Text 10 : Nat) = t.Line)) :
    (Dispenser.on before cur (t :: after) n).NextArg
      = (false, Dispenser.on before cur (t :: after) n) := by
  have hs : (Dispenser.on before cur (t :: after) n).nextOnSameLine
      = (false, Dispenser.on before cur (t :: after) n) := by
    rw [nextOnSameLine_on_cons, if_neg h]
  unfold Dispenser.NextArg
  simp only [hs, Bool.not_false, if_true]

open caddyfile in
theorem NextArg_on_nil (before : List Token) (cur : Token) (n : Int) :
    (Dispenser.on before cur [] n).NextArg = (false, Dispenser.on before cur [] n) := by
  unfold Dispenser.NextArg
  simp only [nextOnSameLine_on_nil, Bool.not_false, if_true]

open caddyfile in
theorem NextBlock_on_word (before : List Token) (cur t : Token) (after : List Token)
    (ho : t.Text ≠ lit "\x7b") (hc : t.Text ≠ lit "\x7d") :
    (Dispenser.on before cur (t :: after) 1).NextBlock 0
      = (true, Dispenser.on (before ++ [cur]) t after 1) := by
  have hn : (Dispenser.on before cur (t :: after) 1).nesting > 0 := by
    simp [Dispenser.on]
  have hn2 : (Dispenser.on (before ++ [cur]) t after 1).nesting > 0 := by
    simp [Dispenser.on]
  unfold Dispenser.NextBlock
  simp only [hn, if_true, Next_on_cons, Bool.not_true, Bool.false_eq_true, if_false,
    Dispenser.countBrace, Dispenser.openingBrace, Val_on, hc, ho, hn2, decide_True]

open caddyfile in
theorem NextBlock_on_closing (before : List Token) (cur t : Token) (hc : t.Text = lit "\x7d") :
    ((Dispenser.on before cur [t] 1).NextBlock 0).1 = false := by
  have hn : (Dispenser.on before cur [t] 1).nesting > 0 := by
    simp [Dispenser.on]
  unfold Dispenser.NextBlock
  simp only [hn, if_true, Next_on_cons, Bool.not_true, Bool.false_eq_true, if_false,
    Dispenser.countBrace, Val_on, hc, nextOnSameLine_on_nil, Bool.not_false]
  simp [Dispenser.on]

theorem plainWord_spec (w : GoString) (h : plainWord w = true) :
    w ≠ lit "\x7b" ∧ w ≠ lit "\x7d" ∧ strings.Count w 10 = 0 := by
  simp only [plainWord, Bool.and_eq_true, decide_eq_true_eq, Bool.not_eq_true',
    List.contains_eq_any_beq, List.any_eq_false, beq_iff_eq] at h
  refine ⟨h.1.1, h.1.2, ?_⟩
  simp only [strings.Count, List.count_eq_zero]
  intro hmem
  exact h.2 10 hmem rfl

theorem tail_cons (f : GoString) (k : Int) (rest : Block) (closing : caddyfile.Token)
    (hb : plainBlock rest = true) (hK : k + 1 + (rest.length : Int) ≤ closing.Line) :
    ∃ t after, linesTokens f (k + 1) rest ++ [closing] = t :: after ∧ k < t.Line := by
  cases rest with
  | nil =>
    refine ⟨closing, [], by simp [linesTokens], ?_⟩
    simp only [List.length_nil] at hK
    omega
  | cons words rest =>
    cases words with
    | nil => simp [plainBlock] at hb
    | cons w ws =>
      refine ⟨{ File := f, Line := k + 1, Text := w }, _, by simp [linesTokens, lineTokens]; rfl, ?_⟩
      simp

open caddyfile in
/-- A line with the name of a subdirective alone. -/
theorem subdirective_line0 (m : HeadlessLogDownload) (before : List Token) (f : GoString)
    (k : Int) (key : GoString) (t : Token) (after : List Token)
    (hkey : plainWord key = true) (ht : k < t.Line) :
    subdirective m (Dispenser.on before { File := f, Line := k, Text := key } (t :: after) 1)
      = if key = lit "service" then
          ({ m with Service := [] },
            Dispenser.on before { File := f, Line := k, Text := key } (t :: after) 1, none)
        else
          (m, Dispenser.on before { File := f, Line := k, Text := key } (t :: after) 1,
            some (.Err (lit "unrecognized subdirective " ++ [39] ++ key ++ [39]))) := by
  obtain ⟨-, -, hcount⟩ := plainWord_spec key hkey
  have hna : (Dispenser.on before { File := f, Line := k, Text := key } (t :: after) 1).NextArg
      = (false, Dispenser.on before { File := f, Line := k, Text := key } (t :: after) 1) := by
    apply NextArg_on_other
    simp only [hcount]
    intro h
    have := h.2
    simp at this
    omega
  have hargs : (Dispenser.on before { File := f, Line := k, Text := key } (t :: after) 1).Args []
      = (false, [], Dispenser.on before { File := f, Line := k, Text := key } (t :: after) 1) := by
    unfold Dispenser.Args
    simp only [hna, Bool.not_false, if_true]
  unfold subdirective
  simp only [hargs, hna, Bool.false_eq_true, if_false, Val_on]

open caddyfile in
/-- A line with the name of a subdirective and one argument. -/
theorem subdirective_line1 (m : HeadlessLogDownload) (before : List Token) (f : GoString)
    (k : Int) (key v : GoString) (t : Token) (after : List Token)
    (hkey : plainWord key = true) (hv : plainWord v = true) (ht : k < t.Line) :
    subdirective m (Dispenser.on before { File := f, Line := k, Text := key }
        ({ File := f, Line := k, Text := v } :: t :: after) 1)
      = if key = lit "service" then
          ({ m with Service := v },
            Dispenser.on (before ++ [{ File := f, Line := k, Text := key }])
              { File := f, Line := k, Text := v } (t :: after) 1, none)
        else
          (m, Dispenser.on (before ++ [{ File := f, Line := k, Text := key }])
              { File := f, Line := k, Text := v } (t :: after) 1,
            some (.Err (lit "unrecognized subdirective " ++ [39] ++ v ++ [39]))) := by
  obtain ⟨-, -, hcount⟩ := plainWord_spec key hkey
  obtain ⟨hvo, -, hvcount⟩ := plainWord_spec v hv
  have hna : (Dispenser.on before { File := f, Line := k, Text := key }
        ({ File := f, Line := k, Text := v } :: t :: after) 1).NextArg
      = (true, Dispenser.on (before ++ [{ File := f, Line := k, Text := key }])
          { File := f, Line := k, Text := v } (t :: after) 1) := by
    apply NextArg_on_same
    · rfl
    · simp [hcount]
    · exact hvo
  have hna2 : (Dispenser.on (before ++ [{ File := f, Line := k, Text := key }])
          { File := f, Line := k, Text := v } (t :: after) 1).NextArg
      = (false, Dispenser.on (before ++ [{ File := f, Line := k, Text := key }])
          { File := f, Line := k, Text := v } (t :: after) 1) := by
    apply NextArg_on_other
    simp only [hvcount]
    intro h
    have := h.2
    simp at this
    omega
  have hargs : (Dispenser.on before { File := f, Line := k, Text := key }
        ({ File := f, Line := k, Text := v } :: t :: after) 1).Args []
      = (true, v, Dispenser.on (before ++ [{ File := f, Line := k, Text := key }])
          { File := f, Line := k, Text := v } (t :: after) 1) := by
    unfold Dispenser.Args
    simp only [hna, Bool.not_true, Bool.false_eq_true, if_false, Val_on]
  unfold subdirective
  simp only [hargs, hna2, Bool.false_eq_true, if_false, Val_on]

open caddyfile in
/-- A line with the name of a subdirective and two arguments or more. -/
theorem subdirective_line2 (m : HeadlessLogDownload) (before : List Token) (f : GoString)
    (k : Int) (key v w : GoString) (after : List Token)
    (hkey : plainWord key = true) (hv : plainWord v = true) (hw : plainWord w = true) :
    (subdirective m (Dispenser.on before { File := f, Line := k, Text := key }
        ({ File := f, Line := k, Text := v } :: { File := f, Line := k, Text := w } :: after)
        1)).1 = m ∧
    (subdirective m (Dispenser.on before { File := f, Line := k, Text := key }
        ({ File := f, Line := k, Text := v } :: { File := f, Line := k, Text := w } :: after)
        1)).2.2
      = some (.Err (lit "Wrong argument count or unexpected line ending after " ++
          [39] ++ w ++ [39])) := by
  obtain ⟨-, -, hcount⟩ := plainWord_spec key hkey
  obtain ⟨hvo, -, hvcount⟩ := plainWord_spec v hv
  obtain ⟨hwo, -, -⟩ := plainWord_spec w hw
  have hna : (Dispenser.on before { File := f, Line := k, Text := key }
        ({ File := f, Line := k, Text := v } :: { File := f, Line := k, Text := w } :: after)
        1).NextArg
      = (true, Dispenser.on (before ++ [{ File := f, Line := k, Text := key }])
          { File := f, Line := k, Text := v }
          ({ File := f, Line := k, Text := w } :: after) 1) := by
    apply NextArg_on_same
    · rfl
    · simp [hcount]
    · exact hvo
  have hna2 : (Dispenser.on (before ++ [{ File := f, Line := k, Text := key }])
          { File := f, Line := k, Text := v }
          ({ File := f, Line := k, Text := w } :: after) 1).NextArg
      = (true, Dispenser.on
          (before ++ [{ File := f, Line := k, Text := key }] ++
            [{ File := f, Line := k, Text := v }])
          { File := f, Line := k, Text := w } after 1) := by
    apply NextArg_on_same
    · rfl
    · simp [hvcount]
    · exact hwo
  have hargs : (Dispenser.on before { File := f, Line := k, Text := key }
        ({ File := f, Line := k, Text := v } :: { File := f, Line := k, Text := w } :: after)
        1).Args []
      = (true, v, Dispenser.on (before ++ [{ File := f, Line := k, Text := key }])
          { File := f, Line := k, Text := v }
          ({ File := f, Line := k, Text := w } :: after) 1) := by
    unfold Dispenser.Args
    simp only [hna, Bool.not_true, Bool.false_eq_true, if_false, Val_on]
  unfold subdirective
  simp only [hargs, hna2, if_true, Dispenser.ArgErr, Val_on, hwo, if_false, and_self]

theorem plainBlock_cons (words : List GoString) (rest : Block)
    (h : plainBlock (words :: rest) = true) :
    words ≠ [] ∧ (∀ w ∈ words, plainWord w = true) ∧ plainBlock rest = true := by
  simp only [plainBlock, List.all_cons, Bool.and_eq_true, decide_eq_true_eq,
    List.all_eq_true] at h
  exact ⟨h.1.1, h.1.2, by simpa [plainBlock] using h.2⟩

open caddyfile in
/-- One pass of the loop on a line of a plain block, given what the loop does on
the lines that follow. -/
theorem unmarshal_pass (f : GoString) (closing : Token) (fuel : Nat) (rest : Block) (k : Int)
    (hrest : plainBlock rest = true) (hK : k + 1 + (rest.length : Int) ≤ closing.Line)
    (H : ∀ (m1 : HeadlessLogDownload) (before : List Token) (cur : Token),
      unmarshalLoop fuel m1
          (Dispenser.on before cur (linesTokens f (k + 1) rest ++ [closing]) 1)
        = some (configure m1 rest))
    (m : HeadlessLogDownload) (before : List Token) (key : GoString) (args : List GoString)
    (hkey : plainWord key = true) (hargs : ∀ w ∈ args, plainWord w = true) :
    (match subdirective m (Dispenser.on before { File := f, Line := k, Text := key }
          (lineTokens f k args ++ (linesTokens f (k + 1) rest ++ [closing])) 1) with
      | (m1, _, some err) => some (m1, some err)
      | (m1, d1, none) => unmarshalLoop fuel m1 d1)
      = some (configure m ((key :: args) :: rest)) := by
  obtain ⟨t, after, htail, ht⟩ := tail_cons f k rest closing hrest hK
  cases args with
  | nil =>
    simp only [lineTokens, List.map_nil, List.nil_append]
    rw [htail, subdirective_line0 m before f k key t after hkey ht, ← htail]
    by_cases hs : key = lit "service"
    · simp [hs, H, configure]
    · simp [hs, configure]
  | cons v args =>
    have hv : plainWord v = true := hargs v (List.mem_cons_self _ _)
    cases args with
    | nil =>
      simp only [lineTokens, List.map_cons, List.map_nil, List.cons_append, List.nil_append]
      rw [htail, subdirective_line1 m before f k key v t after hkey hv ht, ← htail]
      by_cases hs : key = lit "service"
      · simp [hs, H, configure]
      · simp [hs, configure]
    | cons w args =>
      have hw : plainWord w = true :=
        hargs w (List.mem_cons_of_mem _ (List.mem_cons_self _ _))
      simp only [lineTokens, List.map_cons, List.cons_append]
      obtain ⟨h1, h2⟩ := subdirective_line2 m before f k key v w
        (List.map (fun w => ({ File := f, Line := k, Text := w } : Token)) args ++
          (linesTokens f (k + 1) rest ++ [closing])) hkey hv hw
      generalize subdirective m _ = res at h1 h2
      obtain ⟨m1, d1, e1⟩ := res
      simp only at h1 h2
      subst h1 h2
      simp [configure]

theorem unmarshalLoop_succ (fuel : Nat) (m : HeadlessLogDownload) (d : caddyfile.Dispenser) :
    unmarshalLoop (fuel + 1) m d
      = if !(d.NextBlock 0).1 then some (m, none)
        else
          match subdirective m (d.NextBlock 0).2 with
          | (m1, _, some err) => some (m1, some err)
          | (m1, d1, none) => unmarshalLoop fuel m1 d1 := rfl

open caddyfile in
/-- The loop on the lines of a plain block, from any token before them. -/
theorem unmarshalLoop_block (f : GoString) (closing : Token)
    (hc : closing.Text = lit "\x7d") :
    ∀ (b : Block) (k : Int) (fuel : Nat) (m : HeadlessLogDownload) (before : List Token)
      (cur : Token),
      plainBlock b = true → k + (b.length : Int) ≤ closing.Line → b.length + 1 ≤ fuel →
      unmarshalLoop fuel m (Dispenser.on before cur (linesTokens f k b ++ [closing]) 1)
        = some (configure m b) := by
  intro b
  induction b with
  | nil =>
    intro k fuel m before cur _ _ hfuel
    obtain ⟨fuel, rfl⟩ : ∃ n, fuel = n + 1 := ⟨fuel - 1, by simp at hfuel; omega⟩
    rw [unmarshalLoop_succ]
    simp only [linesTokens, List.nil_append,
      NextBlock_on_closing before cur closing hc, Bool.not_false, if_true, configure]
  | cons words rest ih =>
    intro k fuel m before cur hb hK hfuel
    obtain ⟨hne, hwords, hrest⟩ := plainBlock_cons words rest hb
    obtain ⟨fuel, rfl⟩ : ∃ n, fuel = n + 1 := ⟨fuel - 1, by simp at hfuel; omega⟩
    cases words with
    | nil => exact absurd rfl hne
    | cons key args =>
      have hkey : plainWord key = true := hwords key (List.mem_cons_self _ _)
      have hargs : ∀ w ∈ args, plainWord w = true :=
        fun w hw => hwords w (List.mem_cons_of_mem _ hw)
      obtain ⟨ho, hcl, -⟩ := plainWord_spec key hkey
      have hK2 : k + 1 + (rest.length : Int) ≤ closing.Line := by
        simp only [List.length_cons] at hK
        push_cast at hK
        omega
      have hfuel2 : rest.length + 1 ≤ fuel := by
        simp only [List.length_cons] at hfuel
        omega
      have hnb := NextBlock_on_word before cur { File := f, Line := k, Text := key }
        (lineTokens f k args ++ (linesTokens f (k + 1) rest ++ [closing])) ho hcl
      have htok : linesTokens f k ((key :: args) :: rest) ++ [closing]
          = { File := f, Line := k, Text := key } ::
            (lineTokens f k args ++ (linesTokens f (k + 1) rest ++ [closing])) := by
        simp [linesTokens, lineTokens]
      rw [htok, unmarshalLoop_succ]
      simp only [hnb, Bool.not_true, Bool.false_eq_true, if_false]
      exact unmarshal_pass f closing fuel rest k hrest hK2
        (fun m1 before1 cur1 => ih (k + 1) fuel m1 before1 cur1 hrest hK2 hfuel2)
        m (before ++ [cur]) key args hkey hargs

open caddyfile in
theorem NextBlock_on_open_closed (before : List Token) (cur brace t : Token)
    (after : List Token) (hfile : cur.File = brace.File)
    (hline : cur.Line + (strings.Count cur.Text 10 : Nat) = brace.Line)
    (hb : brace.Text = lit "\x7b") (ht : t.Text = lit "\x7d") :
    ((Dispenser.on before cur (brace :: t :: after) 0).NextBlock 0).1 = false := by
  have hn : ¬ (Dispenser.on before cur (brace :: t :: after) 0).nesting > 0 := by
    simp [Dispenser.on]
  have hs : (Dispenser.on before cur (brace :: t :: after) 0).nextOnSameLine
      = (true, Dispenser.on (before ++ [cur]) brace (t :: after) 0) := by
    rw [nextOnSameLine_on_cons, if_pos ⟨hfile, hline⟩]
  unfold Dispenser.NextBlock
  simp only [hn, if_false, hs, Bool.not_true, Bool.false_eq_true, Val_on, hb, ne_eq,
    not_true_eq_false, Next_on_cons, ht, if_true]

open caddyfile in
theorem NextBlock_on_open_word (before : List Token) (cur brace t : Token)
    (after : List Token) (hfile : cur.File = brace.File)
    (hline : cur.Line + (strings.Count cur.Text 10 : Nat) = brace.Line)
    (hb : brace.Text = lit "\x7b") (ht : t.Text ≠ lit "\x7d") :
    (Dispenser.on before cur (brace :: t :: after) 0).NextBlock 0
      = (true, Dispenser.on (before ++ [cur] ++ [brace]) t after 1) := by
  have hn : ¬ (Dispenser.on before cur (brace :: t :: after) 0).nesting > 0 := by
    simp [Dispenser.on]
  have hs : (Dispenser.on before cur (brace :: t :: after) 0).nextOnSameLine
      = (true, Dispenser.on (before ++ [cur]) brace (t :: after) 0) := by
    rw [nextOnSameLine_on_cons, if_pos ⟨hfile, hline⟩]
  unfold Dispenser.NextBlock
  simp only [hn, if_false, hs, Bool.not_true, Bool.false_eq_true, Val_on, hb, ne_eq,
    not_true_eq_false, Next_on_cons, ht]
  simp [Dispenser.on]

open caddyfile in
theorem Next_NewDispenser (t : Token) (rest : List Token) :
    (NewDispenser (t :: rest)).Next = (true, Dispenser.on [] t rest 0) := by
  have h : (-1 : Int) < ((t :: rest).length : Int) - 1 := by
    simp only [List.length_cons]
    push_cast
    omega
  simp only [Dispenser.Next, NewDispenser, h, if_true, Dispenser.on]
  simp

theorem linesTokens_length (f : GoString) (b : Block) :
    ∀ k, plainBlock b = true → b.length ≤ (linesTokens f k b).length := by
  induction b with
  | nil => intro k _; simp
  | cons words rest ih =>
    intro k hb
    obtain ⟨hne, -, hrest⟩ := plainBlock_cons words rest hb
    have hw : 1 ≤ words.length := by
      cases words with
      | nil => exact absurd rfl hne
      | cons w ws => simp
    have := ih (k + 1) hrest
    simp only [linesTokens, List.length_append, List.length_cons, lineTokens, List.length_map]
    omega

/-- On the tokens of a plain block, the loop of `UnmarshalCaddyfile` does what
`configure` says. -/
theorem unmarshalLoop_blockTokens (f : GoString) (b : Block) (m : HeadlessLogDownload)
    (fuel : Nat) (hb : plainBlock b = true) (hfuel : b.length ≤ fuel) :
    unmarshalLoop (fuel + 1) m
        (caddyfile.Dispenser.on [] { File := f, Line := 1, Text := headlessLogDownloadModule }
          ({ File := f, Line := 1, Text := lit "\x7b" } ::
            (linesTokens f 2 b ++ [{ File := f, Line := 2 + (b.length : Int), Text := lit "\x7d" }]))
          0)
      = some (configure m b) := by
  have hname : strings.Count headlessLogDownloadModule 10 = 0 := by decide
  rw [unmarshalLoop_succ]
  cases b with
  | nil =>
    have h := NextBlock_on_open_closed []
      { File := f, Line := 1, Text := headlessLogDownloadModule }
      { File := f, Line := 1, Text := lit "\x7b" }
      { File := f, Line := 2 + (([] : Block).length : Int), Text := lit "\x7d" } []
      rfl (by simp [hname]) rfl rfl
    simp only [linesTokens, List.nil_append, h, Bool.not_false, if_true, configure]
  | cons words rest =>
    obtain ⟨hne, hwords, hrest⟩ := plainBlock_cons words rest hb
    cases words with
    | nil => exact absurd rfl hne
    | cons key args =>
      have hkey : plainWord key = true := hwords key (List.mem_cons_self _ _)
      have hargs : ∀ w ∈ args, plainWord w = true :=
        fun w hw => hwords w (List.mem_cons_of_mem _ hw)
      obtain ⟨-, hcl, -⟩ := plainWord_spec key hkey
      have hK : (2 : Int) + 1 + (rest.length : Int)
          ≤ ({ File := f, Line := 2 + (((key :: args) :: rest).length : Int),
               Text := lit "\x7d" } : caddyfile.Token).Line := by
        simp only [List.length_cons]
        push_cast
        omega
      have hfuel2 : rest.length + 1 ≤ fuel := by
        simp only [List.length_cons] at hfuel
        omega
      have htok : linesTokens f 2 ((key :: args) :: rest) ++
            [{ File := f, Line := 2 + (((key :: args) :: rest).length : Int),
               Text := lit "\x7d" }]
          = { File := f, Line := 2, Text := key } ::
            (lineTokens f 2 args ++ (linesTokens f (2 + 1) rest ++
              [{ File := f, Line := 2 + (((key :: args) :: rest).length : Int),
                 Text := lit "\x7d" }])) := by
        simp [linesTokens, lineTokens]
      rw [htok]
      have hnb := NextBlock_on_open_word []
        { File := f, Line := 1, Text := headlessLogDownloadModule }
        { File := f, Line := 1, Text := lit "\x7b" }
        { File := f, Line := 2, Text := key }
        (lineTokens f 2 args ++ (linesTokens f (2 + 1) rest ++
          [{ File := f, Line := 2 + (((key :: args) :: rest).length : Int),
             Text := lit "\x7d" }]))
        rfl (by simp [hname]) rfl hcl
      simp only [hnb, Bool.not_true, Bool.false_eq_true, if_false]
      exact unmarshal_pass f _ fuel rest 2 hrest hK
        (fun m1 before1 cur1 =>
          unmarshalLoop_block f _ rfl rest (2 + 1) fuel m1 before1 cur1 hrest hK hfuel2)
        m _ key args hkey hargs

/-- `UnmarshalCaddyfile` on the tokens of a plain block: the loop does what
`configure` says, and a handler left without a service is an error. -/
theorem UnmarshalCaddyfile_block (f : GoString) (b : Block) (m : HeadlessLogDownload)
    (hb : plainBlock b = true) :
    m.UnmarshalCaddyfile (caddyfile.NewDispenser (blockTokens f b))
      = some
        (match configure m b with
          | (m1, some err) => (m1, some err)
          | (m1, none) =>
            if m1.Service = [] then
              (m1, some (.Errorf (lit "Please configure the service subdirective")))
            else (m1, none)) := by
  have hlen : b.length ≤ (caddyfile.NewDispenser (blockTokens f b)).tokens.length := by
    have := linesTokens_length f b 2 hb
    simp only [caddyfile.NewDispenser, blockTokens, List.length_append, List.length_cons,
      List.length_nil]
    omega
  have hloop := unmarshalLoop_blockTokens f b m _ hb hlen
  unfold HeadlessLogDownload.UnmarshalCaddyfile
  have hnext : (caddyfile.NewDispenser (blockTokens f b)).Next
      = (true, caddyfile.Dispenser.on []
          { File := f, Line := 1, Text := headlessLogDownloadModule }
          ({ File := f, Line := 1, Text := lit "\x7b" } ::
            (linesTokens f 2 b ++
              [{ File := f, Line := 2 + (b.length : Int), Text := lit "\x7d" }])) 0) := by
    have : blockTokens f b = { File := f, Line := 1, Text := headlessLogDownloadModule } ::
        ({ File := f, Line := 1, Text := lit "\x7b" } ::
          (linesTokens f 2 b ++
            [{ File := f, Line := 2 + (b.length : Int), Text := lit "\x7d" }])) := by
      simp [blockTokens]
    rw [this, Next_NewDispenser]
  simp only [hnext, Bool.not_true, Bool.false_eq_true, if_false, hloop]
  rcases hcfg : configure m b with ⟨m1, e1⟩
  cases e1 with
  | none => by_cases hs : m1.Service = [] <;> simp [hs]
  | some err => simp

theorem lastService_cons (words : List GoString) (rest : Block) :
    lastService (words :: rest)
      = match lastService rest with
        | some v => some v
        | none =>
          if words.head? = some (lit "service") then some (words.getD 1 []) else none := rfl

/-- When the loop ends without an error, the service is the value of the last
`service` subdirective, or what it was when the block has none. -/
theorem configure_service (b : Block) :
    ∀ (m m1 : HeadlessLogDownload), configure m b = (m1, none) →
      m1.Service = match lastService b with
        | some v => v
        | none => m.Service := by
  induction b with
  | nil =>
    intro m m1 h
    simp only [configure, Prod.mk.injEq, and_true] at h
    subst h
    rfl
  | cons words rest ih =>
    intro m m1 h
    unfold configure at h
    by_cases hlen : 2 < words.length
    · simp [hlen] at h
    · by_cases hs : words.head? = some (lit "service")
      · simp only [hlen, if_false, hs, if_true] at h
        have := ih _ m1 h
        rw [this, lastService_cons]
        cases lastService rest <;> simp [hs]
      · simp [hlen, hs] at h

open caddyfile in
theorem reaches_refl (d : Dispenser) (h : d.valid) : d.reaches d :=
  ⟨rfl, le_refl _, h⟩

open caddyfile in
theorem reaches_trans (d d1 d2 : Dispenser) (h1 : d.reaches d1) (h2 : d1.reaches d2) :
    d.reaches d2 :=
  ⟨h2.1.trans h1.1, le_trans h1.2.1 h2.2.1, h2.2.2⟩

open caddyfile in
theorem Next_reaches (d : Dispenser) (h : d.valid) :
    d.reaches d.Next.2 ∧ (d.Next.1 = true → d.cursor < d.Next.2.cursor) := by
  obtain ⟨h0, h1⟩ := h
  unfold Dispenser.Next
  split_ifs with hc
  · refine ⟨⟨rfl, ?_, ?_, ?_⟩, fun _ => ?_⟩ <;> simp only <;> omega
  · exact ⟨⟨rfl, le_refl _, h0, h1⟩, fun hf => absurd hf (by simp)⟩

open caddyfile in
theorem nextOnSameLine_reaches (d : Dispenser) (h : d.valid) :
    d.reaches d.nextOnSameLine.2 ∧
      (d.nextOnSameLine.1 = true → d.cursor < d.nextOnSameLine.2.cursor) := by
  obtain ⟨h0, h1⟩ := h
  have hlt : ¬ d.cursor < 0 := by omega
  have hge : ¬ d.cursor ≥ (d.tokens.length : Int) := by omega
  unfold Dispenser.nextOnSameLine
  simp only [hlt, hge, if_false]
  split
  · split_ifs with hc
    · refine ⟨⟨rfl, ?_, ?_, ?_⟩, fun _ => ?_⟩ <;> simp only <;> omega
    · exact ⟨⟨rfl, le_refl _, h0, h1⟩, fun hf => absurd hf (by simp)⟩
  · exact ⟨⟨rfl, le_refl _, h0, h1⟩, fun hf => absurd hf (by simp)⟩

open caddyfile in
theorem NextArg_reaches (d : Dispenser) (h : d.valid) : d.reaches d.NextArg.2 := by
  obtain ⟨hr, hlt⟩ := nextOnSameLine_reaches d h
  obtain ⟨hd0, hd1⟩ := h
  unfold Dispenser.NextArg
  split_ifs with h1 h2
  · exact hr
  · have hs : d.nextOnSameLine.1 = true := by simpa using h1
    have := hlt hs
    obtain ⟨ht, hle, hv0, hv1⟩ := hr
    refine ⟨ht, ?_, ?_, ?_⟩ <;> simp only <;> omega
  · exact hr

open caddyfile in
theorem Args_reaches (d : Dispenser) (value : GoString) (h : d.valid) :
    d.reaches (d.Args value).2.2 := by
  unfold Dispenser.Args
  split_ifs <;> exact NextArg_reaches d h

open caddyfile in
theorem openingBrace_reaches (d : Dispenser) (h : d.valid) : d.reaches d.openingBrace := by
  obtain ⟨hr, -⟩ := nextOnSameLine_reaches d h
  unfold Dispenser.openingBrace
  split_ifs
  · exact ⟨hr.1, hr.2.1, hr.2.2.1, hr.2.2.2⟩
  · exact hr
  · exact reaches_refl d h

open caddyfile in
theorem countBrace_reaches (d : Dispenser) (h : d.valid) : d.reaches d.countBrace := by
  obtain ⟨hr, -⟩ := nextOnSameLine_reaches d h
  unfold Dispenser.countBrace
  split_ifs
  · exact ⟨hr.1, hr.2.1, hr.2.2.1, hr.2.2.2⟩
  · exact reaches_trans _ _ _ hr (openingBrace_reaches _ hr.2.2)
  · exact openingBrace_reaches d h

open caddyfile in
theorem NextBlock_reaches (d : Dispenser) (n : Int) (h : d.valid) :
    d.reaches (d.NextBlock n).2 ∧
      ((d.NextBlock n).1 = true → d.cursor < (d.NextBlock n).2.cursor) := by
  obtain ⟨hn, hnlt⟩ := Next_reaches d h
  obtain ⟨hs, hslt⟩ := nextOnSameLine_reaches d h
  obtain ⟨hd0, hd1⟩ := h
  unfold Dispenser.NextBlock
  split_ifs with h1 h2 h3 h4 h5
  · exact ⟨hn, fun hf => absurd hf (by simp)⟩
  · have hnt : d.Next.1 = true := by simpa using h2
    have hcb := countBrace_reaches _ hn.2.2
    refine ⟨reaches_trans _ _ _ hn hcb, fun _ => ?_⟩
    have := hnlt hnt
    have := hcb.2.1
    simp only
    omega
  · exact ⟨hs, fun hf => absurd hf (by simp)⟩
  · have hst : d.nextOnSameLine.1 = true := by simpa using h3
    have := hslt hst
    obtain ⟨ht, hle, hv0, hv1⟩ := hs
    refine ⟨⟨ht, ?_, ?_, ?_⟩, fun hf => absurd hf (by simp)⟩ <;> simp only <;> omega
  · have hst : d.nextOnSameLine.1 = true := by simpa using h3
    have hn2 := (Next_reaches _ hs.2.2).1
    exact ⟨reaches_trans _ _ _ hs hn2, fun hf => absurd hf (by simp)⟩
  · have hst : d.nextOnSameLine.1 = true := by simpa using h3
    have hlt := hslt hst
    have hn2 := (Next_reaches _ hs.2.2).1
    obtain ⟨ht, hle, hv0, hv1⟩ := reaches_trans _ _ _ hs hn2
    have := hn2.2.1
    refine ⟨⟨ht, hle, hv0, hv1⟩, fun _ => ?_⟩
    simp only
    omega

open caddyfile in
theorem subdirective_reaches (m : HeadlessLogDownload) (d : Dispenser) (h : d.valid) :
    d.reaches (subdirective m d).2.1 := by
  have h1 := Args_reaches d [] h
  have h2 := NextArg_reaches _ h1.2.2
  have h3 := reaches_trans _ _ _ h1 h2
  unfold subdirective
  simp only
  split_ifs <;> exact h3

open caddyfile in
/-- The loop of `UnmarshalCaddyfile` ends within as many passes as there are
tokens from the cursor on. -/
theorem unmarshalLoop_isSome :
    ∀ (fuel : Nat) (m : HeadlessLogDownload) (d : Dispenser), d.valid →
      (d.tokens.length : Int) - d.cursor ≤ fuel → (unmarshalLoop fuel m d).isSome = true := by
  intro fuel
  induction fuel with
  | zero =>
    intro m d hv hf
    obtain ⟨-, h1⟩ := hv
    simp only [CharP.cast_eq_zero] at hf
    omega
  | succ fuel ih =>
    intro m d hv hf
    rw [unmarshalLoop_succ]
    by_cases hb : (d.NextBlock 0).1 = true
    · obtain ⟨hr, hlt⟩ := NextBlock_reaches d 0 hv
      have hlt2 := hlt hb
      have hsub := subdirective_reaches m _ hr.2.2
      simp only [hb, Bool.not_true, Bool.false_eq_true, if_false]
      rcases hres : subdirective m (d.NextBlock 0).2 with ⟨m1, d1, e1⟩
      rw [hres] at hsub
      cases e1 with
      | some err => simp
      | none =>
        simp only
        apply ih m1 d1 hsub.2.2
        have h1 := hsub.1
        have h2 := hsub.2.1
        have h3 := hr.1
        simp only at h1 h2
        rw [h1, h3]
        push_cast at hf
        omega
    · simp [hb]

/-- `UnmarshalCaddyfile` returns for every list of tokens, and when it returns
`nil` the service of the handler is not empty. -/
theorem UnmarshalCaddyfile_total (m : HeadlessLogDownload) (tokens : List caddyfile.Token) :
    ∃ m1 err, m.UnmarshalCaddyfile (caddyfile.NewDispenser tokens) = some (m1, err) ∧
      (err = none → m1.Service ≠ []) := by
  unfold HeadlessLogDownload.UnmarshalCaddyfile
  by_cases hn : (caddyfile.NewDispenser tokens).Next.1 = true
  · have hv : (caddyfile.NewDispenser tokens).Next.2.valid := by
      unfold caddyfile.Dispenser.Next at hn ⊢
      unfold caddyfile.Dispenser.valid
      split_ifs at hn ⊢ with hc
      simp only [caddyfile.NewDispenser] at hc ⊢
      omega
    have hcur : (caddyfile.NewDispenser tokens).Next.2.cursor = 0 ∧
        (caddyfile.NewDispenser tokens).Next.2.tokens = tokens := by
      unfold caddyfile.Dispenser.Next at hn ⊢
      split_ifs at hn ⊢ with hc
      simp [caddyfile.NewDispenser]
    have hsome := unmarshalLoop_isSome ((caddyfile.NewDispenser tokens).tokens.length + 1) m
      (caddyfile.NewDispenser tokens).Next.2 hv (by
        rw [hcur.1, hcur.2]
        simp only [caddyfile.NewDispenser]
        push_cast
        omega)
    simp only [hn, Bool.not_true, Bool.false_eq_true, if_false]
    rcases hres : unmarshalLoop ((caddyfile.NewDispenser tokens).tokens.length + 1) m
        (caddyfile.NewDispenser tokens).Next.2 with _ | ⟨m1, e1⟩
    · rw [hres] at hsome
      simp at hsome
    · cases e1 with
      | some err => exact ⟨m1, some err, rfl, fun h => absurd h (by simp)⟩
      | none =>
        by_cases hs : m1.Service = []
        · exact ⟨m1, some (.Errorf (lit "Please configure the service subdirective")),
            by simp [hs], fun h => absurd h (by simp)⟩
        · exact ⟨m1, none, by simp [hs], fun _ => hs⟩
  · exact ⟨m, some (.Err (lit "expected token following filter")), by simp [hn],
      fun h => absurd h (by simp)⟩

/-! ## The claims -/

/-- C1: for a redirect URL with an explicit port the handler does not publish
`host:port` as given.  In scenario A of the specification the URL
`https://node-7.internal:9443/stream/abc?x=1` has hostname `node-7.internal`
and port `9443`, and the value published under `redirectHostAndPortVariable`
is `node-7.internal:9443:9443`: the `Host` field already ends in the port. -/
theorem C1_explicit_port_published_twice :
    (url.Parse (lit "https://node-7.internal:9443/stream/abc?x=1")).toOption.map
        (fun u => (u.Hostname, u.Port)) = some (lit "node-7.internal", lit "9443") ∧
    published
        (scenarioService.ServeHTTP scenarioRequest
          (okBody (lit "https://node-7.internal:9443/stream/abc?x=1")) none).effects
        redirectHostAndPortVariable
      = some (lit "node-7.internal:9443:9443") := by
  constructor <;> rfl

/-- C2: after a successful lookup whose URL has no explicit port, the published
host:port value is the host, a colon, and `80` for scheme `http`, `443` for
scheme `https`; for any other scheme nothing is substituted. -/
theorem C2_default_port (m : HeadlessLogDownload) (r : http.Request) (next : Option GoError)
    (body : GoString) (u : url.URL) (req0 : http.Outbound)
    (hreq : http.NewRequest (lit "GET") (lookupURL m r) = some req0)
    (hparse : url.Parse body = .ok u) (hport : u.Port = []) :
    published (m.ServeHTTP r (okBody body) next).effects redirectHostAndPortVariable
      = some (u.Host ++ lit ":" ++
          (if u.Scheme = lit "http" then lit "80"
           else if u.Scheme = lit "https" then lit "443"
           else [])) := by
  rw [ServeHTTP_publish m r next body u req0 hreq hparse, publish_hostPort]
  simp only [redirectHostAndPort, redirectPort, hport]
  split_ifs <;> rfl

/-- C2, scenario B: the body `http://node-3.internal/stream/abc` publishes
`node-3.internal:80`. -/
theorem C2_default_port_witness :
    published
        (scenarioService.ServeHTTP scenarioRequest
          (okBody (lit "http://node-3.internal/stream/abc")) none).effects
        redirectHostAndPortVariable
      = some (lit "node-3.internal:80") :=
  C2_default_port scenarioService scenarioRequest none
    (lit "http://node-3.internal/stream/abc")
    { Scheme := lit "http", Host := lit "node-3.internal", Path := lit "/stream/abc" }
    { Method := lit "GET", URL := lit "http://backend.internal/logs/abc?x=1", Header := [] }
    rfl rfl rfl

/-- C3, as stated, fails: for the body `ftp://files.internal/x` the handler
publishes `files.internal:`, whose port part is empty. -/
theorem C3_port_part_empty_for_ftp :
    published (runScenario (lit "ftp://files.internal/x")).effects redirectHostAndPortVariable
      = some (lit "files.internal:") ∧
    afterLastColon (lit "files.internal:") = [] := by
  constructor <;> rfl

/-- C3, amended: when the handler publishes the host:port value of a resolved
URL, the port part of that value (the text after the final colon) is not empty
exactly when the URL carries a non-empty explicit port or has scheme `http` or
`https`. -/
theorem C3_port_part_nonempty (m : HeadlessLogDownload) (r : http.Request)
    (next : Option GoError) (body : GoString) (u : url.URL) (req0 : http.Outbound)
    (hreq : http.NewRequest (lit "GET") (lookupURL m r) = some req0)
    (hparse : url.Parse body = .ok u) :
    ∃ v, published (m.ServeHTTP r (okBody body) next).effects redirectHostAndPortVariable
        = some v ∧
      (afterLastColon v ≠ [] ↔
        (u.Port ≠ [] ∨ u.Scheme = lit "http" ∨ u.Scheme = lit "https")) := by
  refine ⟨redirectHostAndPort u, ?_, ?_⟩
  · rw [ServeHTTP_publish m r next body u req0 hreq hparse, publish_hostPort]
  · rw [redirectHostAndPort, afterLastColon_append _ _ (redirectPort_no_colon u)]
    unfold redirectPort
    split_ifs with h1 h2 h3
    · exact ⟨fun _ => Or.inr (Or.inl h2), fun _ => by decide⟩
    · exact ⟨fun _ => Or.inr (Or.inr h3), fun _ => by decide⟩
    · constructor
      · intro h
        exact absurd h1 h
      · rintro (h | h | h)
        · exact h
        · exact absurd h h2
        · exact absurd h h3
    · exact ⟨fun h => Or.inl h, fun _ => h1⟩

/-- C3, amended, at the body `https://node-3.internal/stream/abc`. -/
theorem C3_port_part_nonempty_witness :
    ∃ v, published (scenarioService.ServeHTTP scenarioRequest
          (okBody (lit "https://node-3.internal/stream/abc")) none).effects
        redirectHostAndPortVariable = some v ∧
      (afterLastColon v ≠ [] ↔
        (url.URL.Port
            { Scheme := lit "https", Host := lit "node-3.internal", Path := lit "/stream/abc" }
            ≠ [] ∨
          lit "https" = lit "http" ∨ lit "https" = lit "https")) :=
  C3_port_part_nonempty scenarioService scenarioRequest none
    (lit "https://node-3.internal/stream/abc")
    { Scheme := lit "https", Host := lit "node-3.internal", Path := lit "/stream/abc" }
    { Method := lit "GET", URL := lit "http://backend.internal/logs/abc?x=1", Header := [] }
    rfl rfl

/-- C4, as stated, fails: for the body `http://h/p?x=%zz` the query does not
decode, the next handler is not called, and yet the handler has written four of
the five variables (all but the query). -/
theorem C4_four_written_on_decode_failure :
    ¬ (((∀ v ∈ redirectVariables, wrote (runScenario (lit "http://h/p?x=%zz")).effects v = true) ∧
          nextCalls (runScenario (lit "http://h/p?x=%zz")).effects = 1) ∨
        ((∀ v ∈ redirectVariables, wrote (runScenario (lit "http://h/p?x=%zz")).effects v = false) ∧
          nextCalls (runScenario (lit "http://h/p?x=%zz")).effects = 0)) := by
  decide

/-- C4, amended: every run of the handler ends in one of three ways: all five
variables written and the next handler called once; no variable written and the
next handler not called; or, only when the backend answered 200 with a body
that parses and whose query does not decode, the four variables url, hostPort,
host and path written, the query variable not written and the next handler not
called. -/
theorem C4_outcomes (m : HeadlessLogDownload) (r : http.Request)
    (lookup : Option http.Response) (next : Option GoError) :
    ((∀ v ∈ redirectVariables, wrote (m.ServeHTTP r lookup next).effects v = true) ∧
      nextCalls (m.ServeHTTP r lookup next).effects = 1) ∨
    ((∀ v ∈ redirectVariables, wrote (m.ServeHTTP r lookup next).effects v = false) ∧
      nextCalls (m.ServeHTTP r lookup next).effects = 0) ∨
    (wrote (m.ServeHTTP r lookup next).effects redirectURLVariable = true ∧
      wrote (m.ServeHTTP r lookup next).effects redirectHostAndPortVariable = true ∧
      wrote (m.ServeHTTP r lookup next).effects redirectHostVariable = true ∧
      wrote (m.ServeHTTP r lookup next).effects redirectPathVariable = true ∧
      wrote (m.ServeHTTP r lookup next).effects redirectQueryVariable = false ∧
      nextCalls (m.ServeHTTP r lookup next).effects = 0 ∧
      ∃ body u e, lookup = okBody body ∧ url.Parse body = .ok u ∧
        url.QueryUnescape u.RawQuery = .error e) := by
  by_cases hx : ∃ body u req0, lookup = okBody body ∧ url.Parse body = .ok u ∧
      http.NewRequest (lit "GET") (lookupURL m r) = some req0
  · obtain ⟨body, u, req0, hl, hp, hreq⟩ := hx
    subst hl
    rw [ServeHTTP_publish m r next body u req0 hreq hp]
    cases hq : url.QueryUnescape u.RawQuery with
    | ok q =>
      left
      obtain ⟨a1, a2, a3, a4, a5, -, -⟩ := publish_ok u next _ q hq
      refine ⟨?_, a5⟩
      intro v hv
      simp only [redirectVariables, List.mem_cons, List.mem_singleton, List.not_mem_nil,
        or_false] at hv
      rcases hv with rfl | rfl | rfl | rfl | rfl <;>
        simp [wrote, a1, a2, a3, a4, publish_hostPort]
    | error e =>
      right; right
      obtain ⟨a1, a2, a3, a4, a5, -, -⟩ := publish_error u next _ e hq
      exact ⟨by simp [wrote, a1], by simp [wrote, publish_hostPort], by simp [wrote, a2],
        by simp [wrote, a3], by simp [wrote, a4], a5, body, u, e, rfl, hp, hq⟩
  · right; left
    have hstop := ServeHTTP_stopped m r lookup next (by
      intro body u hl hp
      cases hreq : http.NewRequest (lit "GET") (lookupURL m r) with
      | none => rfl
      | some req0 => exact absurd ⟨body, u, req0, hl, hp, hreq⟩ hx)
    exact ⟨fun v _ => by simp [wrote, hstop.1 v], hstop.2⟩

/-- C5: when the backend answers with a status other than 200, the handler
returns an error, writes no variable and does not call the next handler. -/
theorem C5_non_200 (m : HeadlessLogDownload) (r : http.Request) (resp : http.Response)
    (next : Option GoError) (h : resp.StatusCode ≠ 200) :
    (m.ServeHTTP r (some resp) next).err ≠ none ∧
    (∀ name, published (m.ServeHTTP r (some resp) next).effects name = none) ∧
    nextCalls (m.ServeHTTP r (some resp) next).effects = 0 := by
  refine ⟨?_, ServeHTTP_stopped m r (some resp) next ?_⟩
  · unfold HeadlessLogDownload.ServeHTTP
    cases http.NewRequest (lit "GET") (lookupURL m r) with
    | none => simp
    | some req0 => simp [http.StatusOK, h]
  · intro body u hl _
    simp only [okBody, Option.some.injEq] at hl
    subst hl
    exact absurd rfl h

/-- C5, scenario C: the backend answers 404. -/
theorem C5_non_200_witness :
    (scenarioService.ServeHTTP scenarioRequest
        (some { StatusCode := 404, Body := some (lit "not found") }) none).err ≠ none ∧
    (∀ name, published (scenarioService.ServeHTTP scenarioRequest
        (some { StatusCode := 404, Body := some (lit "not found") }) none).effects name = none) ∧
    nextCalls (scenarioService.ServeHTTP scenarioRequest
        (some { StatusCode := 404, Body := some (lit "not found") }) none).effects = 0 :=
  C5_non_200 scenarioService scenarioRequest
    { StatusCode := 404, Body := some (lit "not found") } none (by decide)

/-- C6: when the backend answers 200 with a body that does not parse as a URL,
the handler writes response status 500, returns `nil`, writes no variable and
does not call the next handler. -/
theorem C6_unparsable_body (m : HeadlessLogDownload) (r : http.Request)
    (next : Option GoError) (body : GoString) (e : url.Error) (req0 : http.Outbound)
    (hreq : http.NewRequest (lit "GET") (lookupURL m r) = some req0)
    (hparse : url.Parse body = .error e) :
    writtenStatus (m.ServeHTTP r (okBody body) next).effects = some 500 ∧
    (m.ServeHTTP r (okBody body) next).err = none ∧
    (∀ name, published (m.ServeHTTP r (okBody body) next).effects name = none) ∧
    nextCalls (m.ServeHTTP r (okBody body) next).effects = 0 := by
  simp [HeadlessLogDownload.ServeHTTP, okBody, hreq, hparse, http.StatusOK, writtenStatus,
    published, nextCalls]

/-- C6, scenario D: the body `not a url::::` does not parse. -/
theorem C6_unparsable_body_witness :
    writtenStatus (runScenario (lit "not a url::::")).effects = some 500 ∧
    (runScenario (lit "not a url::::")).err = none ∧
    (∀ name, published (runScenario (lit "not a url::::")).effects name = none) ∧
    nextCalls (runScenario (lit "not a url::::")).effects = 0 :=
  C6_unparsable_body scenarioService scenarioRequest none (lit "not a url::::")
    .firstPathSegmentColon
    { Method := lit "GET", URL := lit "http://backend.internal/logs/abc?x=1", Header := [] }
    rfl rfl

/-- C7, as stated, fails: for the body `http://h/p?x=%zz` the handler writes no
response status and returns the decode error, which is not what it does for an
unparsable body (status 500 and `nil`). -/
theorem C7_decode_failure_is_returned :
    writtenStatus (runScenario (lit "http://h/p?x=%zz")).effects = none ∧
    (runScenario (lit "http://h/p?x=%zz")).err = some (.url (.EscapeError (lit "%zz"))) ∧
    ¬ (writtenStatus (runScenario (lit "http://h/p?x=%zz")).effects = some 500 ∧
        nextCalls (runScenario (lit "http://h/p?x=%zz")).effects = 0 ∧
        (runScenario (lit "http://h/p?x=%zz")).err = none) := by
  decide

/-- C7, amended: when the backend answers 200 with a body that parses but whose
raw query does not decode, the handler does not call the next handler, writes
no response status and returns the decode error. -/
theorem C7_decode_failure (m : HeadlessLogDownload) (r : http.Request)
    (next : Option GoError) (body : GoString) (u : url.URL) (e : url.Error)
    (req0 : http.Outbound)
    (hreq : http.NewRequest (lit "GET") (lookupURL m r) = some req0)
    (hparse : url.Parse body = .ok u)
    (hq : url.QueryUnescape u.RawQuery = .error e) :
    nextCalls (m.ServeHTTP r (okBody body) next).effects = 0 ∧
    writtenStatus (m.ServeHTTP r (okBody body) next).effects = none ∧
    (m.ServeHTTP r (okBody body) next).err = some (.url e) := by
  rw [ServeHTTP_publish m r next body u req0 hreq hparse]
  obtain ⟨-, -, -, -, a5, a6, a7⟩ := publish_error u next _ e hq
  exact ⟨a5, a6, a7⟩

/-- C7, amended, at the body `http://h/p?x=%zz`. -/
theorem C7_decode_failure_witness :
    nextCalls (runScenario (lit "http://h/p?x=%zz")).effects = 0 ∧
    writtenStatus (runScenario (lit "http://h/p?x=%zz")).effects = none ∧
    (runScenario (lit "http://h/p?x=%zz")).err = some (.url (.EscapeError (lit "%zz"))) :=
  C7_decode_failure scenarioService scenarioRequest none (lit "http://h/p?x=%zz")
    { Scheme := lit "http", Host := lit "h", Path := lit "/p", RawQuery := lit "x=%zz" }
    (.EscapeError (lit "%zz"))
    { Method := lit "GET", URL := lit "http://backend.internal/logs/abc?x=1", Header := [] }
    rfl rfl rfl

/-- C8, as stated, fails: the body `http://h/p?a+b` has the raw query `a+b`,
whose percent-decoding is `a+b`, and the handler publishes `a b`. -/
theorem C8_plus_becomes_space :
    (url.Parse (lit "http://h/p?a+b")).toOption.map (fun u => u.RawQuery) = some (lit "a+b") ∧
    percentDecode (lit "a+b") = lit "a+b" ∧
    published (runScenario (lit "http://h/p?a+b")).effects redirectQueryVariable
      = some (lit "a b") ∧
    lit "a b" ≠ lit "a+b" := by
  refine ⟨rfl, rfl, rfl, by decide⟩

/-- C8, amended: after a successful lookup the value published under
`redirectQueryVariable` is what `url.QueryUnescape` returns for the raw query,
that is its percent-decoding with every `+` turned into a space first; it is
the empty string when the URL has no query. -/
theorem C8_decoded_query (m : HeadlessLogDownload) (r : http.Request) (next : Option GoError)
    (body : GoString) (u : url.URL) (q : GoString) (req0 : http.Outbound)
    (hreq : http.NewRequest (lit "GET") (lookupURL m r) = some req0)
    (hparse : url.Parse body = .ok u)
    (hq : url.QueryUnescape u.RawQuery = .ok q) :
    published (m.ServeHTTP r (okBody body) next).effects redirectQueryVariable
      = some (percentDecode (plusToSpace u.RawQuery)) ∧
    (u.RawQuery = [] →
      published (m.ServeHTTP r (okBody body) next).effects redirectQueryVariable = some []) := by
  rw [ServeHTTP_publish m r next body u req0 hreq hparse]
  obtain ⟨-, -, -, a4, -, -, -⟩ := publish_ok u next _ q hq
  rw [a4, QueryUnescape_eq _ _ hq]
  refine ⟨rfl, fun h => ?_⟩
  rw [h]
  rfl

/-- C8, amended, at the body `http://h/p?a+b%21`: the published query is
`a b!`. -/
theorem C8_decoded_query_witness :
    published (runScenario (lit "http://h/p?a+b%21")).effects redirectQueryVariable
      = some (percentDecode (plusToSpace (lit "a+b%21"))) ∧
    (lit "a+b%21" = [] →
      published (runScenario (lit "http://h/p?a+b%21")).effects redirectQueryVariable
        = some []) :=
  C8_decoded_query scenarioService scenarioRequest none (lit "http://h/p?a+b%21")
    { Scheme := lit "http", Host := lit "h", Path := lit "/p", RawQuery := lit "a+b%21" }
    (lit "a b!")
    { Method := lit "GET", URL := lit "http://backend.internal/logs/abc?x=1", Header := [] }
    rfl rfl rfl

/-- C9, as stated, fails: in scenario A the handler does not publish the
values the specification lists, because the published host is
`node-7.internal:9443`, not `node-7.internal`. -/
theorem C9_scenarioA_host_keeps_port :
    published (runScenario (lit "https://node-7.internal:9443/stream/abc?x=1")).effects
        redirectHostVariable = some (lit "node-7.internal:9443") ∧
    ¬ (published (runScenario (lit "https://node-7.internal:9443/stream/abc?x=1")).effects
          redirectURLVariable = some (lit "https://node-7.internal:9443/stream/abc?x=1") ∧
        published (runScenario (lit "https://node-7.internal:9443/stream/abc?x=1")).effects
          redirectHostVariable = some (lit "node-7.internal") ∧
        published (runScenario (lit "https://node-7.internal:9443/stream/abc?x=1")).effects
          redirectHostAndPortVariable = some (lit "node-7.internal:9443") ∧
        published (runScenario (lit "https://node-7.internal:9443/stream/abc?x=1")).effects
          redirectPathVariable = some (lit "/stream/abc") ∧
        published (runScenario (lit "https://node-7.internal:9443/stream/abc?x=1")).effects
          redirectQueryVariable = some (lit "x=1") ∧
        nextCalls (runScenario (lit "https://node-7.internal:9443/stream/abc?x=1")).effects
          = 1) := by
  decide

/-- C9, amended: in scenario A the handler requests
`http://backend.internal/logs/abc?x=1`, publishes url =
`https://node-7.internal:9443/stream/abc?x=1`, host = `node-7.internal:9443`
(the `Host` field of the URL, which keeps the explicit port), path =
`/stream/abc` and query = `x=1`, and then calls the next handler, once and as
its last effect. -/
theorem C9_scenarioA :
    requests (runScenario (lit "https://node-7.internal:9443/stream/abc?x=1")).effects
      = [(lit "GET", lit "http://backend.internal/logs/abc?x=1")] ∧
    published (runScenario (lit "https://node-7.internal:9443/stream/abc?x=1")).effects
      redirectURLVariable = some (lit "https://node-7.internal:9443/stream/abc?x=1") ∧
    published (runScenario (lit "https://node-7.internal:9443/stream/abc?x=1")).effects
      redirectHostVariable = some (lit "node-7.internal:9443") ∧
    published (runScenario (lit "https://node-7.internal:9443/stream/abc?x=1")).effects
      redirectPathVariable = some (lit "/stream/abc") ∧
    published (runScenario (lit "https://node-7.internal:9443/stream/abc?x=1")).effects
      redirectQueryVariable = some (lit "x=1") ∧
    nextCalls (runScenario (lit "https://node-7.internal:9443/stream/abc?x=1")).effects = 1 ∧
    (runScenario (lit "https://node-7.internal:9443/stream/abc?x=1")).effects.getLast?
      = some .next := by
  decide

/-- C10: the only request a run makes is a GET for the service string, the
path of the inbound request and, when the raw query is not empty, `?` and the
raw query, concatenated as they are; it makes that request whenever
`http.NewRequest` accepts that string.  The service
`http://backend.internal`, the path `/logs/abc` and the query `x=1` give
`http://backend.internal/logs/abc?x=1`. -/
theorem C10_lookup_url (m : HeadlessLogDownload) (r : http.Request)
    (lookup : Option http.Response) (next : Option GoError) :
    requests (m.ServeHTTP r lookup next).effects
      = (if (http.NewRequest (lit "GET")
              (m.Service ++ r.Path ++ (if r.RawQuery = [] then [] else lit "?" ++ r.RawQuery))).isSome
         then [(lit "GET",
              m.Service ++ r.Path ++ (if r.RawQuery = [] then [] else lit "?" ++ r.RawQuery))]
         else []) ∧
    lookupURL { Service := lit "http://backend.internal" }
        { Path := lit "/logs/abc", RawQuery := lit "x=1", Header := [] }
      = lit "http://backend.internal/logs/abc?x=1" := by
  refine ⟨?_, rfl⟩
  rw [requests_ServeHTTP, lookupURL_eq]

/-- C11: the outbound request of a run carries `Content-Type` with the single
value `*/*`, and under every other header name the values the inbound request
has for that name, in the same order.  Header names are taken in canonical
form, the form `Header.Add` stores them in; for an inbound header map whose
keys are canonical, as the HTTP server builds it, the outbound map has under
every key other than `Content-Type` exactly what the inbound map has. -/
theorem C11_forwarded_headers (m : HeadlessLogDownload) (r : http.Request)
    (lookup : Option http.Response) (next : Option GoError) (req : http.Outbound)
    (h : Event.Do req ∈ (m.ServeHTTP r lookup next).effects) :
    http.Header.values req.Header (lit "Content-Type") = [lit "*/*"] ∧
    (∀ name, name ≠ lit "Content-Type" →
      http.Header.values req.Header name = valuesByName r.Header name) ∧
    ((∀ kvv ∈ r.Header, textproto.CanonicalMIMEHeaderKey kvv.1 = kvv.1) →
      (r.Header.map (fun kvv => kvv.1)).Nodup →
      ∀ name, name ≠ lit "Content-Type" →
        http.Header.values req.Header name = http.Header.values r.Header name) := by
  rw [Do_mem_ServeHTTP m r lookup next req h]
  refine ⟨?_, ?_, ?_⟩
  · rw [values_lookupHeader, if_pos rfl]
  · intro name hn
    rw [values_lookupHeader, if_neg hn]
  · intro hcanon hnodup name hn
    rw [values_lookupHeader, if_neg hn, valuesByName_canonical _ _ hcanon hnodup]

/-- C11, for an inbound request with two cookie values, two content types and
an accept header: the outbound request has the cookie values and the accept
header as they were, and the one content type `*/*`. -/
theorem C11_forwarded_headers_witness :
    http.Header.values
        [(lit "Cookie", [lit "a=1", lit "b=2"]), (lit "Content-Type", [lit "*/*"]),
          (lit "Accept", [lit "text/event-stream"])]
        (lit "Content-Type") = [lit "*/*"] ∧
    (∀ name, name ≠ lit "Content-Type" →
      http.Header.values
          [(lit "Cookie", [lit "a=1", lit "b=2"]), (lit "Content-Type", [lit "*/*"]),
            (lit "Accept", [lit "text/event-stream"])]
          name = valuesByName requestWithHeaders.Header name) ∧
    ((∀ kvv ∈ requestWithHeaders.Header, textproto.CanonicalMIMEHeaderKey kvv.1 = kvv.1) →
      (requestWithHeaders.Header.map (fun kvv => kvv.1)).Nodup →
      ∀ name, name ≠ lit "Content-Type" →
        http.Header.values
            [(lit "Cookie", [lit "a=1", lit "b=2"]), (lit "Content-Type", [lit "*/*"]),
              (lit "Accept", [lit "text/event-stream"])]
            name = http.Header.values requestWithHeaders.Header name) :=
  C11_forwarded_headers scenarioService requestWithHeaders none none
    { Method := lit "GET", URL := lit "http://backend.internal/logs/abc?x=1",
      Header := [(lit "Cookie", [lit "a=1", lit "b=2"]), (lit "Content-Type", [lit "*/*"]),
        (lit "Accept", [lit "text/event-stream"])] }
    (by decide)

/-- C12: for a fresh handler, `UnmarshalCaddyfile` returns for every list of
tokens, and when it returns `nil` the service is not empty; `parseCaddyfile`
returns the handler in that case and only an error otherwise.  On a block of
plain subdirectives it returns an error when the block has no `service`
subdirective or the last one has an empty or missing value, and when it returns
`nil` the service is the value of the last `service` subdirective.  The block
`service http://server:3000` configures that service. -/
theorem C12_service_is_required :
    (∀ (tokens : List caddyfile.Token),
      ∃ m1 err,
        HeadlessLogDownload.UnmarshalCaddyfile { Service := [] }
            (caddyfile.NewDispenser tokens) = some (m1, err) ∧
        (err = none → m1.Service ≠ []) ∧
        parseCaddyfile (caddyfile.NewDispenser tokens)
          = some (if err = none then some m1 else none, err)) ∧
    (∀ (file : GoString) (b : Block), plainBlock b = true →
      ∃ m1 err,
        HeadlessLogDownload.UnmarshalCaddyfile { Service := [] }
            (caddyfile.NewDispenser (blockTokens file b)) = some (m1, err) ∧
        ((lastService b = none ∨ lastService b = some []) → err ≠ none) ∧
        (err = none → m1.Service ≠ [] ∧ lastService b = some m1.Service)) ∧
    HeadlessLogDownload.UnmarshalCaddyfile { Service := [] }
        (caddyfile.NewDispenser
          (blockTokens (lit "Caddyfile") [[lit "service", lit "http://server:3000"]]))
      = some ({ Service := lit "http://server:3000" }, none) := by
  refine ⟨?_, ?_, by decide⟩
  · intro tokens
    obtain ⟨m1, err, h1, h2⟩ := UnmarshalCaddyfile_total { Service := [] } tokens
    refine ⟨m1, err, h1, h2, ?_⟩
    unfold parseCaddyfile
    rw [h1]
    cases err <;> simp
  · intro file b hb
    have h := UnmarshalCaddyfile_block file b { Service := [] } hb
    rcases hcfg : configure { Service := [] } b with ⟨m1, e1⟩
    rw [hcfg] at h
    cases e1 with
    | some err =>
      exact ⟨m1, some err, h, fun _ => by simp, fun hn => absurd hn (by simp)⟩
    | none =>
      have hsv := configure_service b _ m1 hcfg
      by_cases hs : m1.Service = []
      · refine ⟨m1, some (.Errorf (lit "Please configure the service subdirective")), ?_,
          fun _ => by simp, fun hn => absurd hn (by simp)⟩
        rw [h]
        simp [hs]
      · refine ⟨m1, none, ?_, ?_, fun _ => ⟨hs, ?_⟩⟩
        · rw [h]
          simp [hs]
        · rintro (hl | hl) <;>
            · rw [hl] at hsv
              exact absurd hsv hs
        · cases hl : lastService b with
          | none =>
            rw [hl] at hsv
            exact absurd hsv hs
          | some v =>
            rw [hl] at hsv
            simp only at hsv
            rw [hsv]

/-- C13: when the outbound request cannot be built, or the outbound call does
not complete, the handler returns the error "Server Error: cannot download
headless log", writes no variable and does not call the next handler. -/
theorem C13_backend_unreachable (m : HeadlessLogDownload) (r : http.Request)
    (lookup : Option http.Response) (next : Option GoError)
    (h : http.NewRequest (lit "GET") (lookupURL m r) = none ∨ lookup = none) :
    (m.ServeHTTP r lookup next).err
      = some (.Errorf (lit "Server Error: cannot download headless log")) ∧
    (∀ name, published (m.ServeHTTP r lookup next).effects name = none) ∧
    nextCalls (m.ServeHTTP r lookup next).effects = 0 ∧
    writtenStatus (m.ServeHTTP r lookup next).effects = none := by
  unfold HeadlessLogDownload.ServeHTTP
  cases hreq : http.NewRequest (lit "GET") (lookupURL m r) with
  | none => simp [published, nextCalls, writtenStatus]
  | some req0 =>
    rcases h with h | h
    · rw [hreq] at h
      exact absurd h (by simp)
    · subst h
      simp [published, nextCalls, writtenStatus]

/-- C13, when the call to the backend does not complete. -/
theorem C13_backend_unreachable_witness :
    (scenarioService.ServeHTTP scenarioRequest none none).err
      = some (.Errorf (lit "Server Error: cannot download headless log")) ∧
    (∀ name, published (scenarioService.ServeHTTP scenarioRequest none none).effects name
      = none) ∧
    nextCalls (scenarioService.ServeHTTP scenarioRequest none none).effects = 0 ∧
    writtenStatus (scenarioService.ServeHTTP scenarioRequest none none).effects = none :=
  C13_backend_unreachable scenarioService scenarioRequest none none (Or.inr rfl)

/-- C14, as stated, fails: the empty body and the bare word `hello` both parse
as URLs, so for each of them the handler writes all five variables and calls
the next handler. -/
theorem C14_bare_word_is_published :
    published (runScenario (lit "hello")).effects redirectPathVariable = some (lit "hello") ∧
    published (runScenario (lit "hello")).effects redirectHostAndPortVariable
      = some (lit ":") ∧
    (∀ v ∈ redirectVariables, wrote (runScenario (lit "hello")).effects v = true) ∧
    nextCalls (runScenario (lit "hello")).effects = 1 ∧
    (∀ v ∈ redirectVariables, wrote (runScenario (lit "")).effects v = true) ∧
    nextCalls (runScenario (lit "")).effects = 1 := by
  decide

/-- C14, amended: when the backend answers 200, the handler treats the lookup
as failed (no variable written, next handler not called) exactly when
`url.Parse` rejects the body. -/
theorem C14_failed_iff_unparsable (m : HeadlessLogDownload) (r : http.Request)
    (next : Option GoError) (body : GoString) (req0 : http.Outbound)
    (hreq : http.NewRequest (lit "GET") (lookupURL m r) = some req0) :
    ((∀ name, published (m.ServeHTTP r (okBody body) next).effects name = none) ∧
        nextCalls (m.ServeHTTP r (okBody body) next).effects = 0) ↔
      ∃ e, url.Parse body = .error e := by
  cases hp : url.Parse body with
  | error e =>
    have h := ServeHTTP_stopped m r (okBody body) next (by
      intro b u hb hu
      simp only [okBody, Option.some.injEq, http.Response.mk.injEq, true_and] at hb
      subst hb
      rw [hp] at hu
      exact absurd hu (by simp))
    exact ⟨fun _ => ⟨e, rfl⟩, fun _ => h⟩
  | ok u =>
    constructor
    · intro h
      have h1 := h.1 redirectHostAndPortVariable
      rw [ServeHTTP_publish m r next body u req0 hreq hp, publish_hostPort] at h1
      exact absurd h1 (by simp)
    · rintro ⟨e, he⟩
      exact absurd he (by simp)

/-- C14, amended, at the body `not a url::::`, which `url.Parse` rejects. -/
theorem C14_failed_iff_unparsable_witness :
    ((∀ name, published (runScenario (lit "not a url::::")).effects name = none) ∧
        nextCalls (runScenario (lit "not a url::::")).effects = 0) ↔
      ∃ e, url.Parse (lit "not a url::::") = .error e :=
  C14_failed_iff_unparsable scenarioService scenarioRequest none (lit "not a url::::")
    { Method := lit "GET", URL := lit "http://backend.internal/logs/abc?x=1", Header := [] }
    rfl

/-- C15: after a run that succeeds, the replacer table holds the five variables
(five different names): url is the serialised parsed URL, host its `Host`,
hostPort the composed host:port value, path its `Path`, query the decoded
query; every other variable has the value it had before the run.  The table
is the one the handler's own writes leave. -/
theorem C15_table_after_success (m : HeadlessLogDownload) (r : http.Request)
    (next : Option GoError) (body : GoString) (u : url.URL) (q : GoString)
    (req0 : http.Outbound) (repl : Replacer)
    (hreq : http.NewRequest (lit "GET") (lookupURL m r) = some req0)
    (hparse : url.Parse body = .ok u)
    (hq : url.QueryUnescape u.RawQuery = .ok q) :
    replAfter repl (m.ServeHTTP r (okBody body) next).effects redirectURLVariable
      = some u.String ∧
    replAfter repl (m.ServeHTTP r (okBody body) next).effects redirectHostVariable
      = some u.Host ∧
    replAfter repl (m.ServeHTTP r (okBody body) next).effects redirectHostAndPortVariable
      = some (redirectHostAndPort u) ∧
    replAfter repl (m.ServeHTTP r (okBody body) next).effects redirectPathVariable
      = some u.Path ∧
    replAfter repl (m.ServeHTTP r (okBody body) next).effects redirectQueryVariable
      = some q ∧
    redirectVariables.Nodup ∧
    (∀ k, k ∉ redirectVariables →
      replAfter repl (m.ServeHTTP r (okBody body) next).effects k = repl k) := by
  rw [ServeHTTP_publish m r next body u req0 hreq hparse]
  obtain ⟨a1, a2, a3, a4, -, -, -⟩ := publish_ok u next { req0 with Header := lookupHeader r } q hq
  refine ⟨?_, ?_, ?_, ?_, ?_, by decide, ?_⟩
  · rw [replAfter_eq, a1]
  · rw [replAfter_eq, a2]
  · rw [replAfter_eq, publish_hostPort]
  · rw [replAfter_eq, a3]
  · rw [replAfter_eq, a4]
  · intro k hk
    rw [replAfter_eq, publish_other u next _ k hk]

/-- C15, in scenario A, on a table that holds one other variable. -/
theorem C15_table_after_success_witness :
    replAfter (Replacer.Set (fun _ => none) (lit "http.request.host") (lit "gitpod.io"))
        (runScenario (lit "https://node-7.internal:9443/stream/abc?x=1")).effects
        redirectURLVariable
      = some (url.URL.String
          { Scheme := lit "https", Host := lit "node-7.internal:9443",
            Path := lit "/stream/abc", RawQuery := lit "x=1" }) ∧
    replAfter (Replacer.Set (fun _ => none) (lit "http.request.host") (lit "gitpod.io"))
        (runScenario (lit "https://node-7.internal:9443/stream/abc?x=1")).effects
        redirectHostVariable
      = some (lit "node-7.internal:9443") ∧
    replAfter (Replacer.Set (fun _ => none) (lit "http.request.host") (lit "gitpod.io"))
        (runScenario (lit "https://node-7.internal:9443/stream/abc?x=1")).effects
        redirectHostAndPortVariable
      = some (redirectHostAndPort
          { Scheme := lit "https", Host := lit "node-7.internal:9443",
            Path := lit "/stream/abc", RawQuery := lit "x=1" }) ∧
    replAfter (Replacer.Set (fun _ => none) (lit "http.request.host") (lit "gitpod.io"))
        (runScenario (lit "https://node-7.internal:9443/stream/abc?x=1")).effects
        redirectPathVariable
      = some (lit "/stream/abc") ∧
    replAfter (Replacer.Set (fun _ => none) (lit "http.request.host") (lit "gitpod.io"))
        (runScenario (lit "https://node-7.internal:9443/stream/abc?x=1")).effects
        redirectQueryVariable
      = some (lit "x=1") ∧
    redirectVariables.Nodup ∧
    (∀ k, k ∉ redirectVariables →
      replAfter (Replacer.Set (fun _ => none) (lit "http.request.host") (lit "gitpod.io"))
          (runScenario (lit "https://node-7.internal:9443/stream/abc?x=1")).effects k
        = Replacer.Set (fun _ => none) (lit "http.request.host") (lit "gitpod.io") k) :=
  C15_table_after_success scenarioService scenarioRequest none
    (lit "https://node-7.internal:9443/stream/abc?x=1")
    { Scheme := lit "https", Host := lit "node-7.internal:9443", Path := lit "/stream/abc",
      RawQuery := lit "x=1" }
    (lit "x=1")
    { Method := lit "GET", URL := lit "http://backend.internal/logs/abc?x=1", Header := [] }
    (Replacer.Set (fun _ => none) (lit "http.request.host") (lit "gitpod.io"))
    rfl rfl rfl

/-- C16: in a run where the backend answers 200 with a body that parses and
whose query decodes, the next handler is called once, as the last effect and
after all five variables have been written, and the handler returns what the
next handler returns; in every other run the next handler is not called. -/
theorem C16_next_handler (m : HeadlessLogDownload) (r : http.Request)
    (lookup : Option http.Response) (next : Option GoError) :
    ((∃ req0 body u q, http.NewRequest (lit "GET") (lookupURL m r) = some req0 ∧
          lookup = okBody body ∧ url.Parse body = .ok u ∧
          url.QueryUnescape u.RawQuery = .ok q) →
      nextCalls (m.ServeHTTP r lookup next).effects = 1 ∧
      (m.ServeHTTP r lookup next).effects.getLast? = some .next ∧
      (∀ v ∈ redirectVariables,
        wrote (m.ServeHTTP r lookup next).effects.dropLast v = true) ∧
      (m.ServeHTTP r lookup next).err = next) ∧
    (¬ (∃ req0 body u q, http.NewRequest (lit "GET") (lookupURL m r) = some req0 ∧
          lookup = okBody body ∧ url.Parse body = .ok u ∧
          url.QueryUnescape u.RawQuery = .ok q) →
      nextCalls (m.ServeHTTP r lookup next).effects = 0) := by
  constructor
  · rintro ⟨req0, body, u, q, hreq, hl, hp, hq⟩
    subst hl
    rw [ServeHTTP_publish m r next body u req0 hreq hp]
    obtain ⟨-, -, -, -, a5, -, a7⟩ := publish_ok u next { req0 with Header := lookupHeader r } q hq
    refine ⟨a5, ?_, ?_, a7⟩
    · simp [publish, hq]
    · obtain ⟨h1, h2, h3, h4, h5, h6, h7, h8, h9, h10⟩ := variables_distinct
      intro v hv
      simp only [redirectVariables, List.mem_cons, List.mem_singleton, List.not_mem_nil,
        or_false] at hv
      rcases hv with rfl | rfl | rfl | rfl | rfl <;>
        simp [publish, hq, wrote, published, h1, h2, h3, h4, h5, h6, h7, h8, h9, h10,
          h1.symm, h2.symm, h3.symm, h4.symm, h5.symm, h6.symm, h7.symm, h8.symm, h9.symm,
          h10.symm]
  · intro hno
    by_cases hx : ∃ body u req0, lookup = okBody body ∧ url.Parse body = .ok u ∧
        http.NewRequest (lit "GET") (lookupURL m r) = some req0
    · obtain ⟨body, u, req0, hl, hp, hreq⟩ := hx
      subst hl
      rw [ServeHTTP_publish m r next body u req0 hreq hp]
      cases hq : url.QueryUnescape u.RawQuery with
      | ok q => exact absurd ⟨req0, body, u, q, hreq, rfl, hp, hq⟩ hno
      | error e => exact (publish_error u next _ e hq).2.2.2.2.1
    · exact (ServeHTTP_stopped m r lookup next (by
        intro body u hl hp
        cases hreq : http.NewRequest (lit "GET") (lookupURL m r) with
        | none => rfl
        | some req0 => exact absurd ⟨body, u, req0, hl, hp, hreq⟩ hx)).2

/-- C17: the published host:port value is the published host value (the `Host`
field of the parsed URL, which already holds an explicit port), a colon, and
the explicit port of the URL if it has one, else `80` for scheme `http`, `443`
for scheme `https`, and nothing for any other scheme. -/
theorem C17_hostPort_from_host (m : HeadlessLogDownload) (r : http.Request)
    (next : Option GoError) (body : GoString) (u : url.URL) (req0 : http.Outbound)
    (hreq : http.NewRequest (lit "GET") (lookupURL m r) = some req0)
    (hparse : url.Parse body = .ok u) :
    ∃ host, published (m.ServeHTTP r (okBody body) next).effects redirectHostVariable
        = some host ∧ host = u.Host ∧
      published (m.ServeHTTP r (okBody body) next).effects redirectHostAndPortVariable
        = some (host ++ lit ":" ++ portOrDefault u) := by
  refine ⟨u.Host, ?_, rfl, ?_⟩
  · rw [ServeHTTP_publish m r next body u req0 hreq hparse, publish_host]
  · rw [ServeHTTP_publish m r next body u req0 hreq hparse, publish_hostPort,
      redirectHostAndPort, redirectPort_eq]

/-- C17, in scenario A: the host is `node-7.internal:9443` and the host:port
value is that host, a colon and the port `9443`. -/
theorem C17_hostPort_from_host_witness :
    ∃ host, published (runScenario (lit "https://node-7.internal:9443/stream/abc?x=1")).effects
        redirectHostVariable = some host ∧
      host = lit "node-7.internal:9443" ∧
      published (runScenario (lit "https://node-7.internal:9443/stream/abc?x=1")).effects
        redirectHostAndPortVariable
        = some (host ++ lit ":" ++ portOrDefault
            { Scheme := lit "https", Host := lit "node-7.internal:9443",
              Path := lit "/stream/abc", RawQuery := lit "x=1" }) :=
  C17_hostPort_from_host scenarioService scenarioRequest none
    (lit "https://node-7.internal:9443/stream/abc?x=1")
    { Scheme := lit "https", Host := lit "node-7.internal:9443", Path := lit "/stream/abc",
      RawQuery := lit "x=1" }
    { Method := lit "GET", URL := lit "http://backend.internal/logs/abc?x=1", Header := [] }
    rfl rfl

/-- C18: when the backend answers 200 with a body that parses but whose raw
query does not decode, the handler has written the url, hostPort, host and path
variables, has not written the query variable, writes no response status,
returns the decode error and does not call the next handler. -/
theorem C18_decode_failure_leaves_four (m : HeadlessLogDownload) (r : http.Request)
    (next : Option GoError) (body : GoString) (u : url.URL) (e : url.Error)
    (req0 : http.Outbound)
    (hreq : http.NewRequest (lit "GET") (lookupURL m r) = some req0)
    (hparse : url.Parse body = .ok u)
    (hq : url.QueryUnescape u.RawQuery = .error e) :
    published (m.ServeHTTP r (okBody body) next).effects redirectURLVariable
      = some u.String ∧
    published (m.ServeHTTP r (okBody body) next).effects redirectHostAndPortVariable
      = some (redirectHostAndPort u) ∧
    published (m.ServeHTTP r (okBody body) next).effects redirectHostVariable
      = some u.Host ∧
    published (m.ServeHTTP r (okBody body) next).effects redirectPathVariable
      = some u.Path ∧
    published (m.ServeHTTP r (okBody body) next).effects redirectQueryVariable = none ∧
    writtenStatus (m.ServeHTTP r (okBody body) next).effects = none ∧
    (m.ServeHTTP r (okBody body) next).err = some (.url e) ∧
    nextCalls (m.ServeHTTP r (okBody body) next).effects = 0 := by
  rw [ServeHTTP_publish m r next body u req0 hreq hparse]
  obtain ⟨a1, a2, a3, a4, a5, a6, a7⟩ :=
    publish_error u next { req0 with Header := lookupHeader r } e hq
  exact ⟨a1, publish_hostPort u next _, a2, a3, a4, a6, a7, a5⟩

/-- C18, at the body `http://h/p?x=%zz`. -/
theorem C18_decode_failure_leaves_four_witness :
    published (runScenario (lit "http://h/p?x=%zz")).effects redirectURLVariable
      = some (url.URL.String
          { Scheme := lit "http", Host := lit "h", Path := lit "/p", RawQuery := lit "x=%zz" }) ∧
    published (runScenario (lit "http://h/p?x=%zz")).effects redirectHostAndPortVariable
      = some (redirectHostAndPort
          { Scheme := lit "http", Host := lit "h", Path := lit "/p", RawQuery := lit "x=%zz" }) ∧
    published (runScenario (lit "http://h/p?x=%zz")).effects redirectHostVariable
      = some (lit "h") ∧
    published (runScenario (lit "http://h/p?x=%zz")).effects redirectPathVariable
      = some (lit "/p") ∧
    published (runScenario (lit "http://h/p?x=%zz")).effects redirectQueryVariable = none ∧
    writtenStatus (runScenario (lit "http://h/p?x=%zz")).effects = none ∧
    (runScenario (lit "http://h/p?x=%zz")).err = some (.url (.EscapeError (lit "%zz"))) ∧
    nextCalls (runScenario (lit "http://h/p?x=%zz")).effects = 0 :=
  C18_decode_failure_leaves_four scenarioService scenarioRequest none (lit "http://h/p?x=%zz")
    { Scheme := lit "http", Host := lit "h", Path := lit "/p", RawQuery := lit "x=%zz" }
    (.EscapeError (lit "%zz"))
    { Method := lit "GET", URL := lit "http://backend.internal/logs/abc?x=1", Header := [] }
    rfl rfl rfl

end workspacedownload
